import Mathlib

/-!
Verification of the grid path-finding core (`terrain.py`, `node.py`, `graph.py`).

Modelling conventions:

* Python floats are modelled by exact real arithmetic.  Every quantity the
  two search algorithms compare or add lives in the subring Q[sqrt 2]:
  terrain multipliers are rationals, a step factor is either 1 or sqrt 2.
  We represent `a + b * sqrt 2` as the pair `Q2.mk a b`.  `float('inf')` is
  modelled by `none` in `Option Q2` (named `CostI` below).
* The A* heuristic `math.sqrt(dx*dx + dy*dy)` is an exact real too; it is
  kept symbolically as its radicand `dx*dx + dy*dy : Nat`, so an A*
  priority key is `q + sqrt n`, a pair of a `Q2` and a radicand (`FKey`).
* A Python `Node` is identified by its coordinates (its `__eq__`/`__hash__`
  are coordinate based), so cells are plain pairs `Int × Int`.  The mutable
  per-node search fields `g_cost`/`h_cost`/`parent` are modelled as finite
  maps from cells held in a `Dyn` record that is threaded through the
  search, and the static per-node fields `terrain_type`/`walkable` live in
  the `Graph` record.  `Graph.reset_nodes` writes the initial values into
  every node the graph owns, which in this model is the constant initial
  `Dyn`.
* `heapq` pops the least tuple `(cost, id(node), node)`.  Because each id
  occurs in at most one heap entry, that least entry is unique, so the heap
  is modelled as a plain list plus `popMin`, which removes the least entry
  under the same lexicographic order.  `id(...)` is an arbitrary injective
  assignment of naturals to nodes and is passed in as a parameter `idf`.
* The `while` loops are modelled with a fuel parameter large enough for
  every run (each cell is pushed at most once, see the C3 analysis).
-/

/-- The subring Q[sqrt 2]: `mk a b` denotes the real number `a + b * sqrt 2`. -/
structure Q2 where
  a : ℚ
  b : ℚ
  deriving DecidableEq, Repr

namespace Q2

instance : Zero Q2 := ⟨⟨0, 0⟩⟩
instance : One Q2 := ⟨⟨1, 0⟩⟩
instance : Add Q2 := ⟨fun x y => ⟨x.a + y.a, x.b + y.b⟩⟩
instance : Neg Q2 := ⟨fun x => ⟨-x.a, -x.b⟩⟩
instance : Sub Q2 := ⟨fun x y => ⟨x.a - y.a, x.b - y.b⟩⟩
instance : Mul Q2 := ⟨fun x y => ⟨x.a * y.a + 2 * x.b * y.b, x.a * y.b + x.b * y.a⟩⟩

/-- The element denoting `sqrt 2`. -/
def sqrt2 : Q2 := ⟨0, 1⟩

/-- Embed a rational as an element of Q[sqrt 2]. -/
def ofRat (q : ℚ) : Q2 := ⟨q, 0⟩

/-- `Nonneg x` says the real number `x.a + x.b * sqrt 2` is nonnegative.
The three disjuncts cover: both coefficients nonnegative; `b` negative but
`a` dominating (`a^2 ≥ 2 b^2` with `a ≥ 0`); `a` negative but `b`
dominating (`2 b^2 ≥ a^2` with `b ≥ 0`). -/
def Nonneg (x : Q2) : Prop :=
  (0 ≤ x.a ∧ 0 ≤ x.b) ∨ (0 ≤ x.a ∧ 2 * (x.b * x.b) ≤ x.a * x.a) ∨
    (0 ≤ x.b ∧ x.a * x.a ≤ 2 * (x.b * x.b))

instance : DecidablePred Nonneg := fun x => by
  unfold Nonneg; exact inferInstance

/-- `x ≤ y` as real numbers. -/
def Le (x y : Q2) : Prop := Nonneg (y - x)

/-- `x < y` as real numbers. -/
def Lt (x y : Q2) : Prop := Nonneg (y - x) ∧ x ≠ y

instance : DecidablePred (fun p : Q2 × Q2 => Le p.1 p.2) := fun _ => by
  unfold Le; exact inferInstance

instance decLe (x y : Q2) : Decidable (Le x y) := by
  unfold Le; exact inferInstance

instance decLt (x y : Q2) : Decidable (Lt x y) := by
  unfold Lt; exact inferInstance

theorem ext_ab : ∀ {x y : Q2}, x.a = y.a → x.b = y.b → x = y
  | ⟨_, _⟩, ⟨_, _⟩, rfl, rfl => rfl

@[simp] theorem add_a (x y : Q2) : (x + y).a = x.a + y.a := rfl
@[simp] theorem add_b (x y : Q2) : (x + y).b = x.b + y.b := rfl
@[simp] theorem sub_a (x y : Q2) : (x - y).a = x.a - y.a := rfl
@[simp] theorem sub_b (x y : Q2) : (x - y).b = x.b - y.b := rfl
@[simp] theorem neg_a (x : Q2) : (-x).a = -x.a := rfl
@[simp] theorem neg_b (x : Q2) : (-x).b = -x.b := rfl
@[simp] theorem mul_a (x y : Q2) : (x * y).a = x.a * y.a + 2 * x.b * y.b := rfl
@[simp] theorem mul_b (x y : Q2) : (x * y).b = x.a * y.b + x.b * y.a := rfl
@[simp] theorem zero_a : (0 : Q2).a = 0 := rfl
@[simp] theorem zero_b : (0 : Q2).b = 0 := rfl

theorem sub_eq_zero_iff {x y : Q2} : x - y = 0 ↔ x = y := by
  constructor
  · intro h
    have ha : x.a - y.a = 0 := congrArg Q2.a h
    have hb : x.b - y.b = 0 := congrArg Q2.b h
    exact ext_ab (by linarith) (by linarith)
  · rintro rfl
    exact ext_ab (by simp) (by simp)

set_option maxHeartbeats 1000000 in
theorem nonneg_add {x y : Q2} (hx : Nonneg x) (hy : Nonneg y) : Nonneg (x + y) := by
  obtain ⟨xa, xb⟩ := x
  obtain ⟨ya, yb⟩ := y
  simp only [Nonneg, add_a, add_b] at *
  rcases hx with ⟨h1, h2⟩ | ⟨h1, h2⟩ | ⟨h1, h2⟩ <;>
    rcases hy with ⟨k1, k2⟩ | ⟨k1, k2⟩ | ⟨k1, k2⟩
  · -- (P, P)
    exact Or.inl ⟨by linarith, by linarith⟩
  · -- (P, A)
    rcases le_or_lt 0 (xb + yb) with hb | hb
    · exact Or.inl ⟨by linarith, hb⟩
    · refine Or.inr (Or.inl ⟨by linarith, ?_⟩)
      have hyb : yb < 0 := by linarith
      nlinarith [mul_nonneg h1 k1, mul_nonneg h2 (neg_nonneg.mpr hyb.le)]
  · -- (P, B)
    rcases le_or_lt 0 (xa + ya) with ha | ha
    · exact Or.inl ⟨ha, by linarith⟩
    · refine Or.inr (Or.inr ⟨by linarith, ?_⟩)
      nlinarith [mul_nonneg h1 (neg_nonneg.mpr ha.le), mul_nonneg h2 k1]
  · -- (A, P)
    rcases le_or_lt 0 (xb + yb) with hb | hb
    · exact Or.inl ⟨by linarith, hb⟩
    · refine Or.inr (Or.inl ⟨by linarith, ?_⟩)
      have hxb : xb < 0 := by linarith
      nlinarith [mul_nonneg k1 h1, mul_nonneg k2 (neg_nonneg.mpr hxb.le)]
  · -- (A, A)
    rcases le_or_lt 0 (xb + yb) with hb | hb
    · exact Or.inl ⟨by linarith, hb⟩
    · refine Or.inr (Or.inl ⟨by linarith, ?_⟩)
      have key : 2 * (xb * yb) ≤ xa * ya := by
        rcases le_or_lt (xb * yb) 0 with h | h
        · nlinarith [mul_nonneg h1 k1]
        · have hsq : (2 * (xb * yb)) * (2 * (xb * yb)) ≤ (xa * ya) * (xa * ya) := by
            nlinarith
          nlinarith [mul_nonneg h1 k1]
      nlinarith
  · -- (A, B)
    rcases le_or_lt 0 (xa + ya) with ha | ha <;> rcases le_or_lt 0 (xb + yb) with hb | hb
    · exact Or.inl ⟨ha, hb⟩
    · refine Or.inr (Or.inl ⟨ha, ?_⟩)
      by_contra hc
      push_neg at hc
      have key : -2 * ((xa + ya) * ya) > -4 * (yb * (xb + yb)) := by nlinarith [h2, k2, hc]
      have hR : (0:ℚ) ≤ -4 * (yb * (xb + yb)) := by
        nlinarith [mul_nonneg k1 (neg_nonneg.mpr hb.le)]
      have hsq1 : (-2 * ((xa + ya) * ya)) * (-2 * ((xa + ya) * ya)) >
          (-4 * (yb * (xb + yb))) * (-4 * (yb * (xb + yb))) := by
        nlinarith [key, hR]
      have hsq2 : (-2 * ((xa + ya) * ya)) * (-2 * ((xa + ya) * ya)) ≤
          (-4 * (yb * (xb + yb))) * (-4 * (yb * (xb + yb))) := by
        nlinarith [mul_nonneg (sub_nonneg.mpr hc.le) (sq_nonneg ya),
          mul_nonneg (sub_nonneg.mpr k2) (sq_nonneg (xb + yb))]
      linarith
    · refine Or.inr (Or.inr ⟨hb, ?_⟩)
      by_contra hc
      push_neg at hc
      have key : -2 * ((xa + ya) * xa) < -4 * (xb * (xb + yb)) := by nlinarith [h2, k2, hc]
      have hL : (0:ℚ) ≤ -2 * ((xa + ya) * xa) := by
        nlinarith [mul_nonneg h1 (neg_nonneg.mpr ha.le)]
      have hsq1 : (-2 * ((xa + ya) * xa)) * (-2 * ((xa + ya) * xa)) <
          (-4 * (xb * (xb + yb))) * (-4 * (xb * (xb + yb))) := by
        nlinarith [key, hL]
      have hsq2 : (-4 * (xb * (xb + yb))) * (-4 * (xb * (xb + yb))) ≤
          (-2 * ((xa + ya) * xa)) * (-2 * ((xa + ya) * xa)) := by
        nlinarith [mul_nonneg (sub_nonneg.mpr hc.le) (sq_nonneg xa),
          mul_nonneg (sub_nonneg.mpr h2) (sq_nonneg (xa + ya))]
      linarith
    · exfalso
      have hya : ya < 0 := by linarith
      have h3 : xa * xa < ya * ya := by nlinarith
      nlinarith [h2, k2, h3, sq_nonneg (xb + yb)]
  · -- (B, P)
    rcases le_or_lt 0 (xa + ya) with ha | ha
    · exact Or.inl ⟨ha, by linarith⟩
    · refine Or.inr (Or.inr ⟨by linarith, ?_⟩)
      nlinarith [mul_nonneg k1 (neg_nonneg.mpr ha.le), mul_nonneg k2 h1]
  · -- (B, A)
    rcases le_or_lt 0 (xa + ya) with ha | ha <;> rcases le_or_lt 0 (xb + yb) with hb | hb
    · exact Or.inl ⟨ha, hb⟩
    · refine Or.inr (Or.inl ⟨ha, ?_⟩)
      by_contra hc
      push_neg at hc
      have key : -2 * ((xa + ya) * xa) > -4 * (xb * (xb + yb)) := by nlinarith [h2, k2, hc]
      have hR : (0:ℚ) ≤ -4 * (xb * (xb + yb)) := by
        nlinarith [mul_nonneg h1 (neg_nonneg.mpr hb.le)]
      have hsq1 : (-2 * ((xa + ya) * xa)) * (-2 * ((xa + ya) * xa)) >
          (-4 * (xb * (xb + yb))) * (-4 * (xb * (xb + yb))) := by
        nlinarith [key, hR]
      have hsq2 : (-2 * ((xa + ya) * xa)) * (-2 * ((xa + ya) * xa)) ≤
          (-4 * (xb * (xb + yb))) * (-4 * (xb * (xb + yb))) := by
        nlinarith [mul_nonneg (sub_nonneg.mpr hc.le) (sq_nonneg xa),
          mul_nonneg (sub_nonneg.mpr h2) (sq_nonneg (xb + yb))]
      linarith
    · refine Or.inr (Or.inr ⟨hb, ?_⟩)
      by_contra hc
      push_neg at hc
      have key : -2 * ((xa + ya) * ya) < -4 * (yb * (xb + yb)) := by nlinarith [h2, k2, hc]
      have hL : (0:ℚ) ≤ -2 * ((xa + ya) * ya) := by
        nlinarith [mul_nonneg k1 (neg_nonneg.mpr ha.le)]
      have hsq1 : (-2 * ((xa + ya) * ya)) * (-2 * ((xa + ya) * ya)) <
          (-4 * (yb * (xb + yb))) * (-4 * (yb * (xb + yb))) := by
        nlinarith [key, hL]
      have hsq2 : (-4 * (yb * (xb + yb))) * (-4 * (yb * (xb + yb))) ≤
          (-2 * ((xa + ya) * ya)) * (-2 * ((xa + ya) * ya)) := by
        nlinarith [mul_nonneg (sub_nonneg.mpr hc.le) (sq_nonneg ya),
          mul_nonneg (sub_nonneg.mpr k2) (sq_nonneg (xa + ya))]
      linarith
    · exfalso
      have hxa : xa < 0 := by linarith
      have h3 : ya * ya < xa * xa := by nlinarith
      nlinarith [h2, k2, h3, sq_nonneg (xb + yb)]
  · -- (B, B)
    rcases le_or_lt 0 (xa + ya) with ha | ha
    · exact Or.inl ⟨ha, by linarith⟩
    · refine Or.inr (Or.inr ⟨by linarith, ?_⟩)
      have key : xa * ya ≤ 2 * (xb * yb) := by
        rcases le_or_lt (xa * ya) 0 with h | h
        · nlinarith [mul_nonneg h1 k1]
        · have hsq : (xa * ya) * (xa * ya) ≤ (2 * (xb * yb)) * (2 * (xb * yb)) := by
            nlinarith
          nlinarith [mul_nonneg h1 k1]
      nlinarith

theorem rat_mul_self_ne_two (q : ℚ) : q * q ≠ 2 := by
  intro h
  have h2 : ((q : ℝ)) * (q : ℝ) = 2 := by
    have := congrArg (fun z : ℚ => (z : ℝ)) h
    push_cast at this
    exact this
  have habs : Real.sqrt 2 = |(q : ℝ)| := by
    rw [show (2 : ℝ) = |(q : ℝ)| * |(q : ℝ)| by rw [abs_mul_abs_self]; exact h2.symm]
    exact Real.sqrt_mul_self (abs_nonneg _)
  exact irrational_sqrt_two ⟨|q|, by rw [Rat.cast_abs, habs]⟩

/-- A rational solution of `q^2 = 2 r^2` must be trivial. -/
theorem rat_sq_eq_two_sq (q r : ℚ) (h : q * q = 2 * (r * r)) : q = 0 := by
  rcases eq_or_ne r 0 with rfl | hr
  · have hq : q * q = 0 := by linarith
    exact mul_self_eq_zero.mp hq
  · exfalso
    apply rat_mul_self_ne_two (q / r)
    field_simp
    linarith

set_option maxHeartbeats 1000000 in
theorem nonneg_antisymm {x : Q2} (h1 : Nonneg x) (h2 : Nonneg (-x)) : x = 0 := by
  obtain ⟨xa, xb⟩ := x
  simp only [Nonneg, neg_a, neg_b] at *
  have hxa : xa = 0 := by
    rcases h1 with ⟨a1, b1⟩ | ⟨a1, b1⟩ | ⟨a1, b1⟩ <;>
      rcases h2 with ⟨a2, b2⟩ | ⟨a2, b2⟩ | ⟨a2, b2⟩
    · nlinarith
    · nlinarith
    · nlinarith
    · nlinarith
    · nlinarith
    · exact rat_sq_eq_two_sq xa xb (by nlinarith)
    · nlinarith
    · exact rat_sq_eq_two_sq xa xb (by nlinarith)
    · nlinarith
  have hxb : xb = 0 := by
    subst hxa
    rcases h1 with ⟨a1, b1⟩ | ⟨a1, b1⟩ | ⟨a1, b1⟩ <;>
      rcases h2 with ⟨a2, b2⟩ | ⟨a2, b2⟩ | ⟨a2, b2⟩ <;> nlinarith
  exact ext_ab hxa hxb

theorem nonneg_total (x : Q2) : Nonneg x ∨ Nonneg (-x) := by
  obtain ⟨xa, xb⟩ := x
  simp only [Nonneg, neg_a, neg_b]
  rcases le_total 0 xa with ha | ha <;> rcases le_total 0 xb with hb | hb
  · exact Or.inl (Or.inl ⟨ha, hb⟩)
  · rcases le_total (2 * (xb * xb)) (xa * xa) with h | h
    · exact Or.inl (Or.inr (Or.inl ⟨ha, h⟩))
    · refine Or.inr (Or.inr (Or.inr ⟨by linarith, by nlinarith⟩))
  · rcases le_total (xa * xa) (2 * (xb * xb)) with h | h
    · exact Or.inl (Or.inr (Or.inr ⟨hb, h⟩))
    · refine Or.inr (Or.inr (Or.inl ⟨by linarith, by nlinarith⟩))
  · exact Or.inr (Or.inl ⟨by linarith, by linarith⟩)

theorem lt_asymm {x y : Q2} (h : Lt x y) : ¬ Lt y x := by
  rintro ⟨h1, h2⟩
  obtain ⟨h3, h4⟩ := h
  have hneg : -(y - x) = x - y := by
    apply ext_ab <;> simp <;> ring
  have hx : y - x = 0 := nonneg_antisymm h3 (by rw [hneg]; exact h1)
  exact h4 (sub_eq_zero_iff.mp hx).symm

theorem lt_irrefl (x : Q2) : ¬ Lt x x := fun h => h.2 rfl

theorem sub_add_sub (x y z : Q2) : (z - y) + (y - x) = z - x := by
  apply ext_ab <;> simp <;> ring

theorem lt_trans {x y z : Q2} (h1 : Lt x y) (h2 : Lt y z) : Lt x z := by
  refine ⟨by rw [← sub_add_sub x y z]; exact nonneg_add h2.1 h1.1, ?_⟩
  rintro rfl
  exact lt_asymm h1 h2

theorem add_sub_self (x c : Q2) : x + c - x = c := by
  apply ext_ab <;> simp

theorem lt_of_nonneg_ne {c : Q2} (h : Nonneg c) (hne : c ≠ 0) (x : Q2) :
    Lt x (x + c) := by
  constructor
  · rw [add_sub_self]; exact h
  · intro hx
    apply hne
    have h0 : x + c - x = x - x := by rw [← hx]
    rw [add_sub_self] at h0
    rw [h0]
    apply ext_ab <;> simp

/-- `sqrt2` really denotes the square root of two: it is the unique
nonnegative element whose square is `2`. -/
theorem sqrt2_spec : sqrt2 * sqrt2 = ofRat 2 ∧ Nonneg sqrt2 ∧ sqrt2 ≠ 0 := by
  refine ⟨?_, ?_, ?_⟩
  · apply ext_ab <;> simp [sqrt2, ofRat]
  · exact Or.inl ⟨le_refl 0, by norm_num [sqrt2]⟩
  · intro h
    exact absurd (congrArg Q2.b h) (by norm_num [sqrt2])

end Q2

/-- `float` costs including `float('inf')`: `none` is plus infinity. -/
abbrev CostI := Option Q2

namespace CostI

/-- Addition; infinity absorbs (as it does for floats, and no `inf - inf`
or `0 * inf` ever arises in the algorithms). -/
def add : CostI → CostI → CostI
  | some x, some y => some (x + y)
  | _, _ => none

/-- Strict order with `none` as plus infinity (`inf < inf` is false,
matching IEEE comparison of infinities). -/
def Lt : CostI → CostI → Prop
  | some x, some y => Q2.Lt x y
  | some _, none => True
  | none, _ => False

instance decLt (x y : CostI) : Decidable (Lt x y) := by
  cases x <;> cases y <;> simp only [Lt] <;> exact inferInstance

/-- Multiply a cost by a finite positive factor (the step factor). -/
def scale : CostI → Q2 → CostI
  | some x, d => some (x * d)
  | none, _ => none

theorem lt_transC {x y z : CostI} (h1 : Lt x y) (h2 : Lt y z) : Lt x z := by
  cases x <;> cases y <;> cases z <;> simp only [Lt] at * <;> try trivial
  exact Q2.lt_trans h1 h2

theorem lt_irreflC (x : CostI) : ¬ Lt x x := by
  cases x <;> simp only [Lt]
  · exact fun h => h
  · exact Q2.lt_irrefl _

end CostI

/-! ### terrain.py -/

/-- `TerrainType` dataclass: name, movement cost, display color, walkability. -/
structure TerrainType where
  name : String
  cost : CostI
  color : String
  walkable : Bool
  deriving DecidableEq, Repr

namespace Terrain

def NORMAL : TerrainType := ⟨"normal", some (Q2.ofRat 1), "green", true⟩
def GRASS : TerrainType := ⟨"grass", some (Q2.ofRat (13/10)), "lightgreen", true⟩
def SAND : TerrainType := ⟨"sand", some (Q2.ofRat (17/10)), "sandybrown", true⟩
def WATER : TerrainType := ⟨"water", none, "blue", false⟩
def MOUNTAIN : TerrainType := ⟨"mountain", some (Q2.ofRat (5/2)), "gray", true⟩
def ROAD : TerrainType := ⟨"road", some (Q2.ofRat (7/10)), "darkgray", true⟩

/-- The `_terrain_types` dict. -/
def terrain_types : List (String × TerrainType) :=
  [("normal", NORMAL), ("grass", GRASS), ("sand", SAND),
   ("water", WATER), ("mountain", MOUNTAIN), ("road", ROAD)]

/-- Python's `str.lower()` (ASCII names; agrees with `String.toLower`,
written over the character list so that the kernel can evaluate it). -/
def strLower (s : String) : String := ⟨s.data.map Char.toLower⟩

/-- `Terrain.get_terrain`: `cls._terrain_types.get(name.lower(), cls.NORMAL)`. -/
def get_terrain (name : String) : TerrainType :=
  (terrain_types.lookup (strLower name)).getD NORMAL

/-- `Terrain.get_terrain_cost` (the `if terrain else` fallback is dead:
`get_terrain` always returns an entry). -/
def get_terrain_cost (terrain_name : String) : CostI :=
  (get_terrain terrain_name).cost

/-- `Terrain.is_walkable`. -/
def is_walkable (terrain_name : String) : Bool :=
  (get_terrain terrain_name).walkable

end Terrain

/-! ### node.py / graph.py static state -/

/-- A `Node` is identified by its coordinates (`__eq__`/`__hash__` use only
`(x, y)`). -/
abbrev Cell := ℤ × ℤ

/-- Static state of `Graph`: dimensions plus each node's `terrain_type` and
`walkable` fields.  `Graph.__init__` gives every node terrain `'normal'`
and `walkable = True`. -/
structure Graph where
  width : ℤ
  height : ℤ
  terrain : Cell → String
  walkable : Cell → Bool

namespace Graph

/-- `Graph(width, height)`. -/
def new (width height : ℤ) : Graph :=
  ⟨width, height, fun _ => "normal", fun _ => true⟩

/-- `0 <= x < self.width and 0 <= y < self.height`. -/
def inBounds (G : Graph) (c : Cell) : Prop :=
  0 ≤ c.1 ∧ c.1 < G.width ∧ 0 ≤ c.2 ∧ c.2 < G.height

instance decInBounds (G : Graph) (c : Cell) : Decidable (G.inBounds c) := by
  unfold inBounds; exact inferInstance

/-- `Graph.set_terrain`: in range, set the node's terrain and recompute its
walkability; out of range, no-op. -/
def set_terrain (G : Graph) (x y : ℤ) (terrain_type : String) : Graph :=
  if G.inBounds (x, y) then
    { G with
      terrain := fun c => if c = (x, y) then terrain_type else G.terrain c,
      walkable := fun c => if c = (x, y) then Terrain.is_walkable terrain_type
                           else G.walkable c }
  else G

/-- The relative coordinates of the 8 candidate neighbors, in source order. -/
def directions : List (ℤ × ℤ) :=
  [(0, 1), (1, 0), (0, -1), (-1, 0), (1, 1), (1, -1), (-1, -1), (-1, 1)]

/-- Loop body of `Graph.get_neighbors`: accumulate a candidate into the
`(neighbors, water_neighbors)` pair. -/
def neighborsAcc (G : Graph) (node : Cell) (acc : List Cell × List Cell)
    (d : ℤ × ℤ) : List Cell × List Cell :=
  let nc : Cell := (node.1 + d.1, node.2 + d.2)
  if G.inBounds nc then
    if G.walkable nc then
      if G.terrain nc = "water" then (acc.1, acc.2 ++ [nc])
      else (acc.1 ++ [nc], acc.2)
    else acc
  else acc

/-- `Graph.get_neighbors`. -/
def get_neighbors (G : Graph) (node : Cell) (avoid_water : Bool) : List Cell :=
  let p := directions.foldl (neighborsAcc G node) ([], [])
  if avoid_water = true ∧ p.1 ≠ [] then p.1 else p.1 ++ p.2

/-- `Graph.get_terrain_cost`: destination terrain cost times `sqrt 2` for a
diagonal move, `1.0` otherwise. -/
def get_terrain_cost (G : Graph) (from_node to_node : Cell) : CostI :=
  let terrain_cost := Terrain.get_terrain_cost (G.terrain to_node)
  let dx := |from_node.1 - to_node.1|
  let dy := |from_node.2 - to_node.2|
  let distance := if 0 < dx ∧ 0 < dy then Q2.sqrt2 else Q2.ofRat 1
  terrain_cost.scale distance

end Graph

/-! ### per-node search state (`g_cost`, `h_cost`, `parent`) -/

/-- The mutable search fields living on every node.  `h_cost` stores the
radicand of the heuristic value (the stored real value is `sqrt h_cost`;
the initial `h_cost = 0` is `sqrt 0 = 0`). -/
structure Dyn where
  g_cost : Cell → CostI
  h_cost : Cell → ℕ
  parent : Cell → Option Cell

/-- Pointwise update of a per-cell map. -/
def updFun {α : Type} (f : Cell → α) (c : Cell) (v : α) : Cell → α :=
  fun d => if d = c then v else f d

/-- `Graph.reset_nodes`: sets `g_cost = inf`, `h_cost = 0`, `parent = None`
on every node of the graph.  The graph owns exactly its in-bounds nodes and
they are all reset, so in this model the result is the constant initial
state, whatever the previous state was. -/
def Graph.reset_nodes (_G : Graph) (_prev : Dyn) : Dyn :=
  ⟨fun _ => none, fun _ => 0, fun _ => none⟩

/-! ### PathFinder -/

/-- A heap entry `(cost, id(node), node)`.  `tid` is the `id(...)` value. -/
structure Entry (κ : Type) where
  key : κ
  tid : ℕ
  node : Cell
  deriving DecidableEq, Repr

/-- Remove the least entry under `before` (an irreflexive "strictly comes
first" test).  `heapq` pops the least tuple; in every reachable state the
tids of distinct entries differ, so the least entry is unique and this is
exactly the popped one. -/
def popMin {κ : Type} (before : Entry κ → Entry κ → Bool) :
    List (Entry κ) → Option (Entry κ × List (Entry κ))
  | [] => none
  | e :: es =>
    match popMin before es with
    | none => some (e, [])
    | some (m, rest) => if before m e then some (m, e :: rest) else some (e, es)

/-- Python dict assignment `d[k] = v` on an association list. -/
def dictSet (k : ℕ) (v : Cell) : List (ℕ × Cell) → List (ℕ × Cell)
  | [] => [(k, v)]
  | (k2, v2) :: rest => if k = k2 then (k, v) :: rest else (k2, v2) :: dictSet k v rest

/-- Result of a search: the path, the visited (closed) set in insertion
order, and the final per-node state. -/
structure SearchResult where
  path : List Cell
  closed_set : List Cell
  dyn : Dyn

/-- The loop state of either search: the frontier list (`open_set`), the
bookkeeping dict (`open_set_dict`), the closed set in insertion order, and
the per-node fields. -/
structure SState (κ : Type) where
  open_set : List (Entry κ)
  open_set_dict : List (ℕ × Cell)
  closed_set : List Cell
  dyn : Dyn

/-- One step of a search loop: either the loop returns, or continues in a
new state. -/
inductive StepOut (κ : Type) where
  | done (r : SearchResult)
  | next (st : SState κ)

/-- Loop fuel: each cell is pushed at most once, so a run pops at most
`width * height + 1` entries; this bound is also enough `parent`-chain
fuel for `reconstruct_path`. -/
def Graph.fuelOf (G : Graph) : ℕ := G.width.toNat * G.height.toNat + 2

namespace PathFinder

/-- `PathFinder.heuristic`, kept as the radicand of
`sqrt(dx*dx + dy*dy)`. -/
def heuristic (node end_node : Cell) : ℕ :=
  (node.1 - end_node.1).natAbs * (node.1 - end_node.1).natAbs +
    (node.2 - end_node.2).natAbs * (node.2 - end_node.2).natAbs

/-- Tail of `PathFinder.reconstruct_path`: follow `parent` links,
accumulating.  The fuel is a modelling device; every run provides more
fuel than the longest possible parent chain. -/
def reconstructGo (dyn : Dyn) : ℕ → Option Cell → List Cell → List Cell
  | _, none, path => path
  | 0, some _, path => path
  | f + 1, some c, path => reconstructGo dyn f (dyn.parent c) (path ++ [c])

/-- `PathFinder.reconstruct_path`: collect the `parent` chain, then
reverse it so the path runs start → end. -/
def reconstruct_path (dyn : Dyn) (current_node : Cell) (fuel : ℕ) : List Cell :=
  (reconstructGo dyn fuel (some current_node) []).reverse

/-- Heap-tuple comparison for `dijkstra`: `(g_cost, id, node) <
(g_cost', id', node')` lexicographically.  Equality of finite keys is
numeric equality (our representation of finite floats is canonical).  The
third tuple component is never reached because ids are unique. -/
def dijkstraBefore (e1 e2 : Entry CostI) : Bool :=
  decide (CostI.Lt e1.key e2.key) || (e1.key == e2.key && decide (e1.tid < e2.tid))

/-- Neighbor-relaxation body of the `dijkstra` loop (one neighbor). -/
def dijkstraRelax (G : Graph) (idf : Cell → ℕ) (current : Cell)
    (st : SState CostI) (neighbor : Cell) : SState CostI :=
  if neighbor ∈ st.closed_set then st
  else
    let tentative := CostI.add (st.dyn.g_cost current) (G.get_terrain_cost current neighbor)
    if CostI.Lt tentative (st.dyn.g_cost neighbor) then
      let dyn2 : Dyn := { st.dyn with
        parent := updFun st.dyn.parent neighbor (some current),
        g_cost := updFun st.dyn.g_cost neighbor tentative }
      let st2 := { st with dyn := dyn2 }
      match st2.open_set_dict.lookup (idf neighbor) with
      | none =>
        { st2 with
          open_set := st2.open_set ++ [⟨dyn2.g_cost neighbor, idf neighbor, neighbor⟩],
          open_set_dict := dictSet (idf neighbor) neighbor st2.open_set_dict }
      | some nd =>
        if nd ≠ neighbor then
          { st2 with
            open_set := st2.open_set ++ [⟨dyn2.g_cost neighbor, idf neighbor, neighbor⟩],
            open_set_dict := dictSet (idf neighbor) neighbor st2.open_set_dict }
        else st2
    else st

/-- One iteration of the `dijkstra` `while` loop. -/
def dijkstraStep (G : Graph) (idf : Cell → ℕ) (endc : Cell) (avoid_water : Bool)
    (st : SState CostI) : StepOut CostI :=
  match popMin dijkstraBefore st.open_set with
  | none => .done ⟨[], st.closed_set, st.dyn⟩
  | some (ent, rest) =>
    let current := ent.node
    if current = endc then
      .done ⟨reconstruct_path st.dyn current G.fuelOf, st.closed_set, st.dyn⟩
    else if current ∈ st.closed_set then
      .next { st with open_set := rest }
    else
      let st1 := { st with open_set := rest, closed_set := st.closed_set ++ [current] }
      .next ((G.get_neighbors current avoid_water).foldl (dijkstraRelax G idf current) st1)

/-- The fueled `dijkstra` `while` loop. -/
def dijkstraLoop (G : Graph) (idf : Cell → ℕ) (endc : Cell) (avoid_water : Bool) :
    ℕ → SState CostI → SearchResult
  | 0, st => ⟨[], st.closed_set, st.dyn⟩
  | f + 1, st =>
    match dijkstraStep G idf endc avoid_water st with
    | .done r => r
    | .next st2 => dijkstraLoop G idf endc avoid_water f st2

/-- The state after the initialization part of `dijkstra`: nodes reset,
`start.g_cost = 0`, frontier `[(0, id(start), start)]`, dict
`{id(start): start}`, empty closed set. -/
def dijkstraInit (G : Graph) (dynIn : Dyn) (idf : Cell → ℕ) (start : Cell) : SState CostI :=
  let dyn0 := G.reset_nodes dynIn
  let dyn1 := { dyn0 with g_cost := updFun dyn0.g_cost start (some 0) }
  ⟨[⟨some 0, idf start, start⟩], [(idf start, start)], [], dyn1⟩

/-- `PathFinder.dijkstra`.  `dynIn` is the per-node search state the graph
carries when the call is made (immediately reset); `idf` is the `id(...)`
assignment of this run. -/
def dijkstra (G : Graph) (dynIn : Dyn) (idf : Cell → ℕ) (start endc : Cell)
    (avoid_water : Bool) : SearchResult :=
  dijkstraLoop G idf endc avoid_water G.fuelOf (dijkstraInit G dynIn idf start)

/-- Iterating the `dijkstra` loop body a given number of times from a
state (stopping early if the loop returns), to talk about the states a run
moves through. -/
def dijkstraIter (G : Graph) (idf : Cell → ℕ) (endc : Cell) (avoid_water : Bool) :
    ℕ → SState CostI → SState CostI
  | 0, st => st
  | f + 1, st =>
    match dijkstraStep G idf endc avoid_water st with
    | .done _ => st
    | .next st2 => dijkstraIter G idf endc avoid_water f st2

end PathFinder

/-! ### A* priority keys `g + sqrt n` -/

/-- Finite A* priority key: `(q, n)` denotes the real `q + sqrt n`
(`f_cost = g_cost + h_cost` with `g_cost` in Q[sqrt 2] and `h_cost` the
square root of a natural radicand). -/
abbrev FKey := Q2 × ℕ

namespace FKey

/-- Boolean comparison on Q[sqrt 2]. -/
def q2ble (x y : Q2) : Bool := decide (Q2.Le x y)

/-- Decide `x.1 + sqrt x.2 ≤ y.1 + sqrt y.2` exactly, by moving the
rational-quadratic part to one side and squaring twice with sign case
analysis: with `p = y.1 - x.1`, `m = x.2`, `n = y.2`, the question is
`sqrt m ≤ p + sqrt n`; the right side `L` is negative iff `p < 0` and
`p^2 > n`; when `L ≥ 0` the question squares to `T ≤ S * sqrt n` with
`T = m - n - p^2`, `S = 2 p`, which squares once more after comparing
signs of `T` and `S`. -/
def ble (x y : FKey) : Bool :=
  let p : Q2 := y.1 - x.1
  let n : ℕ := y.2
  let lNeg : Bool :=
    if Q2.Nonneg p then false
    else !(q2ble (p * p) (Q2.ofRat n))
  if lNeg then false
  else
    let T : Q2 := Q2.ofRat x.2 - Q2.ofRat n - p * p
    let S : Q2 := Q2.ofRat 2 * p
    if Q2.Nonneg S then
      if q2ble T 0 then true
      else q2ble (T * T) (Q2.ofRat n * (S * S))
    else
      q2ble T 0 && q2ble (Q2.ofRat n * (S * S)) (T * T)

end FKey

/-- A* keys with infinity (`f_cost` of a node with infinite `g_cost`). -/
abbrev FKeyI := Option FKey

namespace FKeyI

/-- `≤` on keys with `none` as plus infinity. -/
def ble : FKeyI → FKeyI → Bool
  | some x, some y => FKey.ble x y
  | _, none => true
  | none, some _ => false

/-- Numeric (real-valued) equality of keys, as float `==` would compare. -/
def beq (x y : FKeyI) : Bool := ble x y && ble y x

/-- Strict `<` on keys. -/
def blt (x y : FKeyI) : Bool := !(ble y x)

end FKeyI

/-- `f_cost` property: `g_cost + h_cost`, infinite when `g_cost` is. -/
def fCost (g : CostI) (h : ℕ) : FKeyI :=
  g.map (fun q => (q, h))

namespace PathFinder

/-- Heap-tuple comparison for `a_star`: lexicographic on
`(f_cost, id)`, key equality being numeric equality of the real values
(as float `==`); the node component is never reached. -/
def astarBefore (e1 e2 : Entry FKeyI) : Bool :=
  FKeyI.blt e1.key e2.key || (FKeyI.beq e1.key e2.key && decide (e1.tid < e2.tid))

/-- Neighbor-relaxation body of the `a_star` loop (one neighbor): same as
`dijkstra` plus the `h_cost` recomputation. -/
def astarRelax (G : Graph) (idf : Cell → ℕ) (endc current : Cell)
    (st : SState FKeyI) (neighbor : Cell) : SState FKeyI :=
  if neighbor ∈ st.closed_set then st
  else
    let tentative := CostI.add (st.dyn.g_cost current) (G.get_terrain_cost current neighbor)
    if CostI.Lt tentative (st.dyn.g_cost neighbor) then
      let dyn2 : Dyn := { st.dyn with
        parent := updFun st.dyn.parent neighbor (some current),
        g_cost := updFun st.dyn.g_cost neighbor tentative,
        h_cost := updFun st.dyn.h_cost neighbor (heuristic neighbor endc) }
      let st2 := { st with dyn := dyn2 }
      match st2.open_set_dict.lookup (idf neighbor) with
      | none =>
        { st2 with
          open_set := st2.open_set ++
            [⟨fCost (dyn2.g_cost neighbor) (dyn2.h_cost neighbor), idf neighbor, neighbor⟩],
          open_set_dict := dictSet (idf neighbor) neighbor st2.open_set_dict }
      | some nd =>
        if nd ≠ neighbor then
          { st2 with
            open_set := st2.open_set ++
              [⟨fCost (dyn2.g_cost neighbor) (dyn2.h_cost neighbor), idf neighbor, neighbor⟩],
            open_set_dict := dictSet (idf neighbor) neighbor st2.open_set_dict }
        else st2
    else st

/-- One iteration of the `a_star` `while` loop. -/
def astarStep (G : Graph) (idf : Cell → ℕ) (endc : Cell) (avoid_water : Bool)
    (st : SState FKeyI) : StepOut FKeyI :=
  match popMin astarBefore st.open_set with
  | none => .done ⟨[], st.closed_set, st.dyn⟩
  | some (ent, rest) =>
    let current := ent.node
    if current = endc then
      .done ⟨reconstruct_path st.dyn current G.fuelOf, st.closed_set, st.dyn⟩
    else if current ∈ st.closed_set then
      .next { st with open_set := rest }
    else
      let st1 := { st with open_set := rest, closed_set := st.closed_set ++ [current] }
      .next ((G.get_neighbors current avoid_water).foldl (astarRelax G idf endc current) st1)

/-- The fueled `a_star` `while` loop. -/
def astarLoop (G : Graph) (idf : Cell → ℕ) (endc : Cell) (avoid_water : Bool) :
    ℕ → SState FKeyI → SearchResult
  | 0, st => ⟨[], st.closed_set, st.dyn⟩
  | f + 1, st =>
    match astarStep G idf endc avoid_water st with
    | .done r => r
    | .next st2 => astarLoop G idf endc avoid_water f st2

/-- The state after the initialization part of `a_star`: nodes reset,
`start.g_cost = 0`, `start.h_cost = heuristic(start, end)`, frontier
`[(start.f_cost, id(start), start)]`. -/
def astarInit (G : Graph) (dynIn : Dyn) (idf : Cell → ℕ) (start endc : Cell) :
    SState FKeyI :=
  let dyn0 := G.reset_nodes dynIn
  let dyn1 := { dyn0 with
    g_cost := updFun dyn0.g_cost start (some 0),
    h_cost := updFun dyn0.h_cost start (heuristic start endc) }
  ⟨[⟨fCost (dyn1.g_cost start) (dyn1.h_cost start), idf start, start⟩],
    [(idf start, start)], [], dyn1⟩

/-- `PathFinder.a_star`. -/
def a_star (G : Graph) (dynIn : Dyn) (idf : Cell → ℕ) (start endc : Cell)
    (avoid_water : Bool) : SearchResult :=
  astarLoop G idf endc avoid_water G.fuelOf (astarInit G dynIn idf start endc)

/-- Iterating the `a_star` loop body. -/
def astarIter (G : Graph) (idf : Cell → ℕ) (endc : Cell) (avoid_water : Bool) :
    ℕ → SState FKeyI → SState FKeyI
  | 0, st => st
  | f + 1, st =>
    match astarStep G idf endc avoid_water st with
    | .done _ => st
    | .next st2 => astarIter G idf endc avoid_water f st2

end PathFinder

/-! ### Path validity and path cost (for the testable properties) -/

/-- The per-node search state of a freshly built graph: every `Node` is
constructed with `g_cost = inf`, `h_cost = 0`, `parent = None`. -/
def Dyn.fresh : Dyn := ⟨fun _ => none, fun _ => 0, fun _ => none⟩

/-- Total accumulated cost of a path: sum of `edge_cost` over consecutive
pairs. -/
def pathCost (G : Graph) : List Cell → CostI
  | a :: b :: rest => CostI.add (G.get_terrain_cost a b) (pathCost G (b :: rest))
  | _ => some 0

/-- A start-to-end path in the grid: each step goes to a cell that
`get_neighbors` offers from the previous one. -/
def Graph.isPathB (G : Graph) (avoid_water : Bool) : List Cell → Bool
  | a :: b :: rest =>
    (G.get_neighbors a avoid_water).contains b && G.isPathB avoid_water (b :: rest)
  | _ => true

/-! ### concrete grids used as inputs -/

/-- 3 x 4 grid exhibiting the missed-repush suboptimality, built exactly as
a caller would: construct, then assign terrain cell by cell. -/
def bugGrid : Graph :=
  ((((((((((Graph.new 3 4).set_terrain 0 0 "road").set_terrain 1 0 "sand").set_terrain
    2 0 "water").set_terrain 0 1 "mountain").set_terrain 1 1 "water").set_terrain
    2 1 "road").set_terrain 0 2 "grass").set_terrain 1 2 "sand").set_terrain
    0 3 "water").set_terrain 2 3 "water"

/-- An id assignment: distinct naturals per in-bounds cell of a 3 x 4 grid. -/
def idLin : Cell → ℕ := fun c => c.1.toNat * 4 + c.2.toNat

/-- 1 x 2 grid whose start cell is water. -/
def wsGrid : Graph := (Graph.new 1 2).set_terrain 0 0 "water"

/-- An id assignment for 1 x 2 and 2 x 2 grids. -/
def idL2 : Cell → ℕ := fun c => c.1.toNat * 2 + c.2.toNat

/-- 2 x 2 grid with a mountain corner: the mountain cell's `g_cost` is
improved after its only push. -/
def mtGrid : Graph := (Graph.new 2 2).set_terrain 1 1 "mountain"

/-- 3 x 3 grid with a water center: two tied frontier keys, so the result
depends on the id assignment. -/
def wcGrid : Graph := (Graph.new 3 3).set_terrain 1 1 "water"

/-- Ascending id assignment on the 3 x 3 grid. -/
def idA : Cell → ℕ := fun c => c.1.toNat * 3 + c.2.toNat

/-- Descending id assignment on the 3 x 3 grid (ids are arbitrary distinct
integers; both assignments are realizable address layouts). -/
def idB : Cell → ℕ := fun c => 8 - (c.1.toNat * 3 + c.2.toNat)

/-! ### Claim theorems: concrete runs -/

/-- The start-to-end path through the mountain gate of `bugGrid` that the
run misses. -/
def cheaperPath : List Cell := [(1, 3), (0, 2), (0, 1), (0, 0)]

/-- C1: the claim fails on the code and the code contradicts its own
documentation ("el camino más corto").  On `bugGrid`, from the walkable
start `(1,3)` to the walkable, reachable end `(0,0)`, `dijkstra` returns
the path `(1,3),(2,2),(2,1),(1,0),(0,0)` whose accumulated cost
`7/5 + 27/10 * sqrt 2 ≈ 5.218` does equal the final `g_cost` of the end
cell, but `cheaperPath` is a valid start-to-end path of strictly smaller
cost `16/5 + 13/10 * sqrt 2 ≈ 5.038`: the cell `(0,1)` is pushed once at
key `1.7 + 2.5 * sqrt 2`, its `g_cost` later improves to `4.338` with no
second push (the `open_set_dict` guard), so the end is popped before it. -/
theorem dijkstra_returns_suboptimal_path :
    bugGrid.walkable (1, 3) = true ∧ bugGrid.walkable (0, 0) = true ∧
    (PathFinder.dijkstra bugGrid Dyn.fresh idLin (1, 3) (0, 0) true).path =
      [(1, 3), (2, 2), (2, 1), (1, 0), (0, 0)] ∧
    bugGrid.isPathB true
      (PathFinder.dijkstra bugGrid Dyn.fresh idLin (1, 3) (0, 0) true).path = true ∧
    pathCost bugGrid (PathFinder.dijkstra bugGrid Dyn.fresh idLin (1, 3) (0, 0) true).path =
      some ⟨7/5, 27/10⟩ ∧
    (PathFinder.dijkstra bugGrid Dyn.fresh idLin (1, 3) (0, 0) true).dyn.g_cost (0, 0) =
      some ⟨7/5, 27/10⟩ ∧
    bugGrid.isPathB true cheaperPath = true ∧
    cheaperPath.head? = some (1, 3) ∧ cheaperPath.getLast? = some (0, 0) ∧
    pathCost bugGrid cheaperPath = some ⟨16/5, 13/10⟩ ∧
    Q2.Lt ⟨16/5, 13/10⟩ ⟨7/5, 27/10⟩ := by
  with_unfolding_all decide

/-- C2, counterexample: on the 1 x 2 grid whose start cell is water, the
run finds the path `(0,0),(0,1)` yet the end `(0,1)` is not in the closed
set (the loop returns the moment it pops the end, before closing it), and
the closed set contains the non-walkable start. -/
theorem closed_set_claim_fails_on_wsGrid :
    (PathFinder.dijkstra wsGrid Dyn.fresh idL2 (0, 0) (0, 1) true).path ≠ [] ∧
    (0, 1) ∉ (PathFinder.dijkstra wsGrid Dyn.fresh idL2 (0, 0) (0, 1) true).closed_set ∧
    (0, 0) ∈ (PathFinder.dijkstra wsGrid Dyn.fresh idL2 (0, 0) (0, 1) true).closed_set ∧
    wsGrid.walkable (0, 0) = false := by
  with_unfolding_all decide

/-- C3, counterexample: on `mtGrid` (search from `(0,0)` to `(1,1)`), after
two loop iterations the not-yet-closed cell `(1,1)` has had its `g_cost`
improved from `5/2 * sqrt 2 ≈ 3.536` to `7/2 = 3.5`, yet its frontier
entries are exactly the ones from the previous state (still carrying the
old key) and no entry with the new key exists: improving a cell's `g_cost`
does not push a new entry once its id is in `open_set_dict`. -/
theorem improved_cell_is_not_repushed :
    (PathFinder.dijkstraIter mtGrid idL2 (1, 1) true 1
        (PathFinder.dijkstraInit mtGrid Dyn.fresh idL2 (0, 0))).dyn.g_cost (1, 1) =
      some ⟨0, 5/2⟩ ∧
    (PathFinder.dijkstraIter mtGrid idL2 (1, 1) true 2
        (PathFinder.dijkstraInit mtGrid Dyn.fresh idL2 (0, 0))).dyn.g_cost (1, 1) =
      some ⟨7/2, 0⟩ ∧
    Q2.Lt ⟨7/2, 0⟩ ⟨0, 5/2⟩ ∧
    (1, 1) ∉ (PathFinder.dijkstraIter mtGrid idL2 (1, 1) true 2
        (PathFinder.dijkstraInit mtGrid Dyn.fresh idL2 (0, 0))).closed_set ∧
    (PathFinder.dijkstraIter mtGrid idL2 (1, 1) true 2
        (PathFinder.dijkstraInit mtGrid Dyn.fresh idL2 (0, 0))).open_set.filter
        (fun e => e.node == (1, 1)) =
      (PathFinder.dijkstraIter mtGrid idL2 (1, 1) true 1
        (PathFinder.dijkstraInit mtGrid Dyn.fresh idL2 (0, 0))).open_set.filter
        (fun e => e.node == (1, 1)) ∧
    (PathFinder.dijkstraIter mtGrid idL2 (1, 1) true 2
        (PathFinder.dijkstraInit mtGrid Dyn.fresh idL2 (0, 0))).open_set.filter
        (fun e => e.key == some (⟨7/2, 0⟩ : Q2)) = [] := by
  with_unfolding_all decide

/-- The in-bounds cells of the 3 x 3 grid. -/
def cells3x3 : List Cell :=
  [(0, 0), (0, 1), (0, 2), (1, 0), (1, 1), (1, 2), (2, 0), (2, 1), (2, 2)]

/-- C4, counterexample: `idA` and `idB` are two injective id assignments
(two realizable address layouts) for the 3 x 3 water-center grid, and the
path returned by `dijkstra` from `(1,0)` to `(1,2)` differs between them:
the tie at key `sqrt 2` between `(0,1)` and `(2,1)` is broken by `id`, so
the result is not independent of object identity. -/
theorem dijkstra_path_depends_on_id_assignment :
    (cells3x3.map idA).Nodup ∧ (cells3x3.map idB).Nodup ∧
    (PathFinder.dijkstra wcGrid Dyn.fresh idA (1, 0) (1, 2) true).path =
      [(1, 0), (0, 1), (1, 2)] ∧
    (PathFinder.dijkstra wcGrid Dyn.fresh idB (1, 0) (1, 2) true).path =
      [(1, 0), (2, 1), (1, 2)] ∧
    (PathFinder.dijkstra wcGrid Dyn.fresh idA (1, 0) (1, 2) true).path ≠
      (PathFinder.dijkstra wcGrid Dyn.fresh idB (1, 0) (1, 2) true).path := by
  with_unfolding_all decide

/-- C9: both searches reset every node's search state on entry
(`reset_nodes` giving the same initial state whatever was left over), so
the result never depends on the incoming per-node state, and running the
same search twice in a row (the second run starting from the first run's
leftover state) yields identical path and closed-set results. -/
theorem searches_reset_state_first (G : Graph) (d1 d2 : Dyn) (idf : Cell → ℕ)
    (s e : Cell) (avoid : Bool) :
    PathFinder.dijkstra G d1 idf s e avoid = PathFinder.dijkstra G d2 idf s e avoid ∧
    PathFinder.a_star G d1 idf s e avoid = PathFinder.a_star G d2 idf s e avoid ∧
    (PathFinder.dijkstra G (PathFinder.dijkstra G d1 idf s e avoid).dyn idf s e avoid).path =
      (PathFinder.dijkstra G d1 idf s e avoid).path ∧
    (PathFinder.dijkstra G (PathFinder.dijkstra G d1 idf s e avoid).dyn idf s e avoid).closed_set =
      (PathFinder.dijkstra G d1 idf s e avoid).closed_set ∧
    (PathFinder.a_star G (PathFinder.a_star G d1 idf s e avoid).dyn idf s e avoid).path =
      (PathFinder.a_star G d1 idf s e avoid).path ∧
    (PathFinder.a_star G (PathFinder.a_star G d1 idf s e avoid).dyn idf s e avoid).closed_set =
      (PathFinder.a_star G d1 idf s e avoid).closed_set :=
  ⟨rfl, rfl, rfl, rfl, rfl, rfl⟩

/-- C10: with start equal to end, both searches pop the start as the very
first (and only) frontier entry, see `current == end` before anything is
closed, and return the single-cell path with an empty closed set — whatever
the cell's terrain or walkability. -/
theorem start_eq_end_returns_singleton (G : Graph) (dynIn : Dyn) (idf : Cell → ℕ)
    (s : Cell) (avoid : Bool) (hin : G.inBounds s) :
    (PathFinder.dijkstra G dynIn idf s s avoid).path = [s] ∧
    (PathFinder.dijkstra G dynIn idf s s avoid).closed_set = [] ∧
    (PathFinder.a_star G dynIn idf s s avoid).path = [s] ∧
    (PathFinder.a_star G dynIn idf s s avoid).closed_set = [] := by
  refine ⟨?_, ?_, ?_, ?_⟩ <;>
    simp [PathFinder.dijkstra, PathFinder.a_star, PathFinder.dijkstraLoop,
      PathFinder.astarLoop, Graph.fuelOf, PathFinder.dijkstraStep, PathFinder.astarStep,
      PathFinder.dijkstraInit, PathFinder.astarInit, popMin,
      PathFinder.reconstruct_path, PathFinder.reconstructGo, Graph.reset_nodes]

/-- Witness for the start-equals-end theorem at a concrete input: the
water-center grid with the non-walkable center as both start and end. -/
theorem start_eq_end_returns_singleton_witness :
    wcGrid.inBounds (1, 1) ∧
    ((PathFinder.dijkstra wcGrid Dyn.fresh idA (1, 1) (1, 1) true).path = [(1, 1)] ∧
     (PathFinder.dijkstra wcGrid Dyn.fresh idA (1, 1) (1, 1) true).closed_set = [] ∧
     (PathFinder.a_star wcGrid Dyn.fresh idA (1, 1) (1, 1) true).path = [(1, 1)] ∧
     (PathFinder.a_star wcGrid Dyn.fresh idA (1, 1) (1, 1) true).closed_set = []) :=
  ⟨by with_unfolding_all decide,
   start_eq_end_returns_singleton wcGrid Dyn.fresh idA (1, 1) true
     (by with_unfolding_all decide)⟩

theorem CostI.scale_one (x : CostI) : x.scale (Q2.ofRat 1) = x := by
  cases x with
  | none => rfl
  | some q =>
    simp only [CostI.scale, Option.some.injEq]
    apply Q2.ext_ab <;> simp [Q2.ofRat] <;> ring

/-- C6: the cost of a move is the destination terrain's multiplier scaled
by `sqrt 2` exactly when both coordinate deltas are non-zero, and
unchanged (factor `1.0`) otherwise; and it depends only on the destination
cell's terrain name and the diagonality of the move — not on the graph,
the source cell, or any other field. -/
theorem edge_cost_formula (G : Graph) (a b : Cell) :
    (0 < |a.1 - b.1| ∧ 0 < |a.2 - b.2| →
      G.get_terrain_cost a b = (Terrain.get_terrain_cost (G.terrain b)).scale Q2.sqrt2) ∧
    (¬(0 < |a.1 - b.1| ∧ 0 < |a.2 - b.2|) →
      G.get_terrain_cost a b = Terrain.get_terrain_cost (G.terrain b)) ∧
    (∀ (H : Graph) (c d : Cell), G.terrain b = H.terrain d →
      ((0 < |a.1 - b.1| ∧ 0 < |a.2 - b.2|) ↔ (0 < |c.1 - d.1| ∧ 0 < |c.2 - d.2|)) →
      G.get_terrain_cost a b = H.get_terrain_cost c d) := by
  refine ⟨?_, ?_, ?_⟩
  · intro h
    simp only [Graph.get_terrain_cost]
    rw [if_pos h]
  · intro h
    simp only [Graph.get_terrain_cost]
    rw [if_neg h, CostI.scale_one]
  · intro H c d ht hiff
    simp only [Graph.get_terrain_cost, ht]
    by_cases hd : 0 < |a.1 - b.1| ∧ 0 < |a.2 - b.2|
    · rw [if_pos hd, if_pos (hiff.mp hd)]
    · rw [if_neg hd, if_neg (fun hc => hd (hiff.mpr hc))]

/-- Witness for the edge-cost formula: a diagonal move onto a normal cell
and an orthogonal move onto a sand cell of `bugGrid`. -/
theorem edge_cost_formula_witness :
    bugGrid.get_terrain_cost (1, 3) (2, 2) =
      (Terrain.get_terrain_cost (bugGrid.terrain (2, 2))).scale Q2.sqrt2 ∧
    bugGrid.get_terrain_cost (1, 3) (1, 2) =
      Terrain.get_terrain_cost (bugGrid.terrain (1, 2)) :=
  ⟨(edge_cost_formula bugGrid (1, 3) (2, 2)).1 (by with_unfolding_all decide),
   (edge_cost_formula bugGrid (1, 3) (1, 2)).2.1 (by with_unfolding_all decide)⟩

/-- Shift a cell by a relative direction. -/
def Graph.shiftCell (node : Cell) (d : ℤ × ℤ) : Cell := (node.1 + d.1, node.2 + d.2)

/-- The claim's formulation of `get_neighbors`. -/
def neighborsSpec (G : Graph) (node : Cell) (avoid_water : Bool) : List Cell :=
  let cand := Graph.directions.map (Graph.shiftCell node)
  let kept := (cand.filter (fun c => decide (G.inBounds c))).filter G.walkable
  let safe := kept.filter (fun c => !(G.terrain c == "water"))
  let hazard := kept.filter (fun c => G.terrain c == "water")
  if avoid_water = true ∧ safe ≠ [] then safe else safe ++ hazard

theorem neighborsAcc_foldl (G : Graph) (node : Cell) :
    ∀ (ds : List (ℤ × ℤ)) (acc : List Cell × List Cell),
    ds.foldl (Graph.neighborsAcc G node) acc =
      (acc.1 ++ (((ds.map (Graph.shiftCell node)).filter
          (fun c => decide (G.inBounds c))).filter G.walkable).filter
          (fun c => !(G.terrain c == "water")),
       acc.2 ++ (((ds.map (Graph.shiftCell node)).filter
          (fun c => decide (G.inBounds c))).filter G.walkable).filter
          (fun c => G.terrain c == "water"))
  | [], acc => by simp
  | d :: ds, acc => by
    rw [List.foldl_cons, neighborsAcc_foldl G node ds]
    by_cases h1 : G.inBounds (node.1 + d.1, node.2 + d.2)
    · by_cases h2 : G.walkable (node.1 + d.1, node.2 + d.2)
      · by_cases h3 : G.terrain (node.1 + d.1, node.2 + d.2) = "water"
        · simp [Graph.neighborsAcc, Graph.shiftCell, h1, h2, h3]
        · simp [Graph.neighborsAcc, Graph.shiftCell, h1, h2, h3]
      · simp [Graph.neighborsAcc, Graph.shiftCell, h1, h2]
    · simp [Graph.neighborsAcc, Graph.shiftCell, h1]

/-- C5: `get_neighbors` examines the 8 surrounding positions in the fixed
source order, discards out-of-bounds and non-walkable candidates,
partitions the remainder into safe (terrain not `"water"`) and hazard
(terrain `"water"`) groups, and returns only the safe group when
`avoid_water` holds and it is non-empty, otherwise safe followed by
hazard. -/
theorem get_neighbors_is_filter_partition (G : Graph) (node : Cell) (avoid_water : Bool) :
    G.get_neighbors node avoid_water = neighborsSpec G node avoid_water := by
  unfold Graph.get_neighbors neighborsSpec
  rw [neighborsAcc_foldl]
  simp

/-- `get_neighbors` only looks at bounds, the walkable flag, and the
water test, so it is preserved by any graph change preserving those. -/
theorem get_neighbors_congr (G1 G2 : Graph) (node : Cell) (avoid_water : Bool)
    (hw : G1.width = G2.width) (hh : G1.height = G2.height)
    (hwalk : ∀ c, G1.walkable c = G2.walkable c)
    (hwater : ∀ c, (G1.terrain c == "water") = (G2.terrain c == "water")) :
    G1.get_neighbors node avoid_water = G2.get_neighbors node avoid_water := by
  rw [get_neighbors_is_filter_partition, get_neighbors_is_filter_partition]
  simp only [neighborsSpec]
  have hin : ∀ c, decide (G1.inBounds c) = decide (G2.inBounds c) := fun c =>
    decide_eq_decide.mpr (by unfold Graph.inBounds; rw [hw, hh])
  have e1 : (Graph.directions.map (Graph.shiftCell node)).filter
        (fun c => decide (G1.inBounds c)) =
      (Graph.directions.map (Graph.shiftCell node)).filter
        (fun c => decide (G2.inBounds c)) :=
    List.filter_congr (fun c _ => hin c)
  rw [e1]
  have e2 : ((Graph.directions.map (Graph.shiftCell node)).filter
        (fun c => decide (G2.inBounds c))).filter G1.walkable =
      ((Graph.directions.map (Graph.shiftCell node)).filter
        (fun c => decide (G2.inBounds c))).filter G2.walkable :=
    List.filter_congr (fun c _ => hwalk c)
  rw [e2]
  set kept := ((Graph.directions.map (Graph.shiftCell node)).filter
    (fun c => decide (G2.inBounds c))).filter G2.walkable with hkept
  have e3 : kept.filter (fun c => !(G1.terrain c == "water")) =
      kept.filter (fun c => !(G2.terrain c == "water")) :=
    List.filter_congr (fun c _ => congrArg (fun b => !b) (hwater c))
  have e4 : kept.filter (fun c => G1.terrain c == "water") =
      kept.filter (fun c => G2.terrain c == "water") :=
    List.filter_congr (fun c _ => hwater c)
  rw [e3, e4]

/-- C7: terrain lookup is case-insensitive (names with the same
lowercasing are looked up identically) and an unrecognized name falls back
to the `NORMAL` entry, so its movement cost and walkability are those of
`"normal"`; consequently a cell assigned an unknown name via `set_terrain`
is behaviorally identical to one set to `"normal"`: same walkability, same
incoming edge costs, and the same neighbor lists everywhere. -/
theorem unknown_terrain_behaves_as_normal :
    (∀ s t : String, Terrain.strLower s = Terrain.strLower t →
      Terrain.get_terrain s = Terrain.get_terrain t) ∧
    (∀ name : String, Terrain.terrain_types.lookup (Terrain.strLower name) = none →
      Terrain.get_terrain name = Terrain.NORMAL ∧
      Terrain.get_terrain_cost name = Terrain.get_terrain_cost "normal" ∧
      Terrain.is_walkable name = Terrain.is_walkable "normal") ∧
    (∀ (name : String) (G : Graph) (x y : ℤ),
      Terrain.terrain_types.lookup (Terrain.strLower name) = none →
      (∀ c, (G.set_terrain x y name).walkable c = (G.set_terrain x y "normal").walkable c) ∧
      (∀ a b, (G.set_terrain x y name).get_terrain_cost a b =
        (G.set_terrain x y "normal").get_terrain_cost a b) ∧
      (∀ c av, (G.set_terrain x y name).get_neighbors c av =
        (G.set_terrain x y "normal").get_neighbors c av)) := by
  have hdef : ∀ name : String, Terrain.terrain_types.lookup (Terrain.strLower name) = none →
      Terrain.get_terrain name = Terrain.NORMAL := by
    intro name h
    unfold Terrain.get_terrain
    rw [h]
    rfl
  have hnorm : Terrain.get_terrain "normal" = Terrain.NORMAL := by
    with_unfolding_all decide
  refine ⟨?_, ?_, ?_⟩
  · intro s t h
    unfold Terrain.get_terrain
    rw [h]
  · intro name h
    refine ⟨hdef name h, ?_, ?_⟩
    · unfold Terrain.get_terrain_cost
      rw [hdef name h, hnorm]
    · unfold Terrain.is_walkable
      rw [hdef name h, hnorm]
  · intro name G x y h
    have hwalk : Terrain.is_walkable name = Terrain.is_walkable "normal" := by
      unfold Terrain.is_walkable
      rw [hdef name h, hnorm]
    have hcost : Terrain.get_terrain_cost name = Terrain.get_terrain_cost "normal" := by
      unfold Terrain.get_terrain_cost
      rw [hdef name h, hnorm]
    have hnw : name ≠ "water" := by
      rintro rfl
      have hws : Terrain.terrain_types.lookup (Terrain.strLower "water") =
          some Terrain.WATER := by with_unfolding_all decide
      rw [hws] at h
      exact Option.noConfusion h
    have hterw : ∀ c, ((G.set_terrain x y name).terrain c == "water") =
        ((G.set_terrain x y "normal").terrain c == "water") := by
      intro c
      unfold Graph.set_terrain
      by_cases hb : G.inBounds (x, y)
      · simp only [if_pos hb]
        by_cases hc : c = (x, y)
        · simp only [if_pos hc]
          simp [hnw]
        · simp only [if_neg hc]
      · simp only [if_neg hb]
    have hwfun : ∀ c, (G.set_terrain x y name).walkable c =
        (G.set_terrain x y "normal").walkable c := by
      intro c
      unfold Graph.set_terrain
      by_cases hb : G.inBounds (x, y)
      · simp only [if_pos hb]
        by_cases hc : c = (x, y)
        · simp only [if_pos hc, hwalk]
        · simp only [if_neg hc]
      · simp only [if_neg hb]
    refine ⟨hwfun, ?_, ?_⟩
    · intro a b
      unfold Graph.get_terrain_cost
      have hterr : Terrain.get_terrain_cost ((G.set_terrain x y name).terrain b) =
          Terrain.get_terrain_cost ((G.set_terrain x y "normal").terrain b) := by
        unfold Graph.set_terrain
        by_cases hb : G.inBounds (x, y)
        · simp only [if_pos hb]
          by_cases hc : b = (x, y)
          · simp only [if_pos hc, hcost]
          · simp only [if_neg hc]
        · simp only [if_neg hb]
      rw [hterr]
    · intro c av
      apply get_neighbors_congr
      · unfold Graph.set_terrain
        by_cases hb : G.inBounds (x, y) <;> simp [hb]
      · unfold Graph.set_terrain
        by_cases hb : G.inBounds (x, y) <;> simp [hb]
      · exact hwfun
      · exact hterw

/-- Witness for the unknown-terrain theorem: the names `"Water"` and
`"wATER"` lowercase identically, and `"lava"` is not in the catalog. -/
theorem unknown_terrain_behaves_as_normal_witness :
    (Terrain.strLower "Water" = Terrain.strLower "wATER" ∧
      Terrain.get_terrain "Water" = Terrain.get_terrain "wATER") ∧
    (Terrain.terrain_types.lookup (Terrain.strLower "lava") = none ∧
      Terrain.get_terrain_cost "lava" = Terrain.get_terrain_cost "normal") ∧
    (wcGrid.set_terrain 0 0 "lava").walkable (0, 0) =
      (wcGrid.set_terrain 0 0 "normal").walkable (0, 0) :=
  ⟨⟨by with_unfolding_all decide,
    unknown_terrain_behaves_as_normal.1 "Water" "wATER" (by with_unfolding_all decide)⟩,
   ⟨by with_unfolding_all decide,
    (unknown_terrain_behaves_as_normal.2.1 "lava" (by with_unfolding_all decide)).2.1⟩,
   (unknown_terrain_behaves_as_normal.2.2 "lava" wcGrid 0 0
     (by with_unfolding_all decide)).1 (0, 0)⟩

/-- A cell that can appear in the frontier or closed set: the start, or an
in-bounds walkable cell. -/
def NodeOk (G : Graph) (s : Cell) (c : Cell) : Prop :=
  c = s ∨ (G.inBounds c ∧ G.walkable c = true)

theorem popMin_mem {κ : Type} (before : Entry κ → Entry κ → Bool) :
    ∀ {l : List (Entry κ)} {m : Entry κ} {rest : List (Entry κ)},
    popMin before l = some (m, rest) → m ∈ l ∧ ∀ x ∈ rest, x ∈ l
  | [], m, rest => by simp [popMin]
  | e :: es, m, rest => by
    intro h
    simp only [popMin] at h
    rcases hrec : popMin before es with _ | ⟨m2, rest2⟩
    · rw [hrec] at h
      simp only [Option.some.injEq, Prod.mk.injEq] at h
      obtain ⟨rfl, rfl⟩ := h
      exact ⟨List.mem_cons_self _ _, by simp⟩
    · rw [hrec] at h
      have ih := popMin_mem before hrec
      by_cases hb : before m2 e
      · simp only [hb, if_true, Option.some.injEq, Prod.mk.injEq] at h
        obtain ⟨rfl, rfl⟩ := h
        refine ⟨List.mem_cons_of_mem _ ih.1, ?_⟩
        intro x hx
        rcases List.mem_cons.mp hx with rfl | hx2
        · exact List.mem_cons_self _ _
        · exact List.mem_cons_of_mem _ (ih.2 x hx2)
      · simp only [hb, if_false, Option.some.injEq, Prod.mk.injEq] at h
        obtain ⟨rfl, rfl⟩ := h
        exact ⟨List.mem_cons_self _ _, fun x hx => List.mem_cons_of_mem _ hx⟩

theorem popMin_countP {κ : Type} (before : Entry κ → Entry κ → Bool)
    (p : Entry κ → Bool) :
    ∀ {l : List (Entry κ)} {m : Entry κ} {rest : List (Entry κ)},
    popMin before l = some (m, rest) → rest.countP p ≤ l.countP p
  | [], m, rest => by simp [popMin]
  | e :: es, m, rest => by
    intro h
    simp only [popMin] at h
    rcases hrec : popMin before es with _ | ⟨m2, rest2⟩
    · rw [hrec] at h
      simp only [Option.some.injEq, Prod.mk.injEq] at h
      obtain ⟨rfl, rfl⟩ := h
      simp [List.countP_cons]
    · rw [hrec] at h
      have ih := popMin_countP before p hrec
      by_cases hb : before m2 e
      · simp only [hb, if_true, Option.some.injEq, Prod.mk.injEq] at h
        obtain ⟨rfl, rfl⟩ := h
        simp only [List.countP_cons]
        omega
      · simp only [hb, if_false, Option.some.injEq, Prod.mk.injEq] at h
        obtain ⟨rfl, rfl⟩ := h
        simp only [List.countP_cons]
        omega

theorem mem_get_neighbors {G : Graph} {node c : Cell} {av : Bool}
    (h : c ∈ G.get_neighbors node av) :
    G.inBounds c ∧ G.walkable c = true ∧ c ≠ node := by
  rw [get_neighbors_is_filter_partition] at h
  simp only [neighborsSpec] at h
  have hkept : ∀ x ∈ ((Graph.directions.map (Graph.shiftCell node)).filter
      (fun d => decide (G.inBounds d))).filter G.walkable,
      G.inBounds x ∧ G.walkable x = true ∧ x ≠ node := by
    intro x hx
    have h1 := List.mem_filter.mp hx
    have h2 := List.mem_filter.mp h1.1
    refine ⟨of_decide_eq_true h2.2, h1.2, ?_⟩
    obtain ⟨d, hd, rfl⟩ := List.mem_map.mp h2.1
    intro heq
    simp only [Graph.shiftCell] at heq
    have e1 : node.1 + d.1 = node.1 := congrArg Prod.fst heq
    have e2 : node.2 + d.2 = node.2 := congrArg Prod.snd heq
    have hd1 : d.1 = 0 := by omega
    have hd2 : d.2 = 0 := by omega
    have hd0 : d = ((0 : ℤ), (0 : ℤ)) := Prod.ext hd1 hd2
    rw [hd0] at hd
    simp [Graph.directions, Prod.ext_iff] at hd
  split at h
  · exact hkept c (List.mem_filter.mp h).1
  · rcases List.mem_append.mp h with hs | hz
    · exact hkept c (List.mem_filter.mp hs).1
    · exact hkept c (List.mem_filter.mp hz).1

theorem Q2.lt_zero_iff (x : Q2) : Q2.Lt 0 x ↔ Q2.Nonneg x ∧ x ≠ 0 := by
  unfold Q2.Lt
  have hx : x - 0 = x := Q2.ext_ab (by simp) (by simp)
  rw [hx]
  constructor
  · rintro ⟨h1, h2⟩; exact ⟨h1, fun he => h2 he.symm⟩
  · rintro ⟨h1, h2⟩; exact ⟨h1, fun he => h2 he.symm⟩

theorem Q2.pos_mul_sqrt2 {q : Q2} (h : Q2.Lt 0 q) : Q2.Lt 0 (q * Q2.sqrt2) := by
  rw [Q2.lt_zero_iff] at h ⊢
  obtain ⟨hn, hne⟩ := h
  have hcomp : q * Q2.sqrt2 = ⟨2 * q.b, q.a⟩ := by
    apply Q2.ext_ab <;> simp [Q2.sqrt2] <;> ring
  constructor
  · rw [hcomp]
    obtain ⟨qa, qb⟩ := q
    simp only [Q2.Nonneg] at hn ⊢
    rcases hn with ⟨h1, h2⟩ | ⟨h1, h2⟩ | ⟨h1, h2⟩
    · exact Or.inl ⟨by linarith, h1⟩
    · rcases le_or_lt 0 qb with hb | hb
      · exact Or.inl ⟨by linarith, h1⟩
      · exact Or.inr (Or.inr ⟨h1, by nlinarith⟩)
    · rcases le_or_lt 0 qa with ha | ha
      · exact Or.inl ⟨by linarith, ha⟩
      · exact Or.inr (Or.inl ⟨by linarith, by nlinarith⟩)
  · rw [hcomp]
    intro he
    apply hne
    have h1 : 2 * q.b = 0 := congrArg Q2.a he
    have h2 : q.a = 0 := congrArg Q2.b he
    exact Q2.ext_ab (by simp [h2]) (by simp; linarith)

/-- A successful catalog lookup yields one of the six entries. -/
theorem lookup_terrain_cases {key : String} {v : TerrainType}
    (h : Terrain.terrain_types.lookup key = some v) :
    v = Terrain.NORMAL ∨ v = Terrain.GRASS ∨ v = Terrain.SAND ∨
      v = Terrain.WATER ∨ v = Terrain.MOUNTAIN ∨ v = Terrain.ROAD := by
  simp only [Terrain.terrain_types, List.lookup] at h
  repeat' split at h
  all_goals first
    | (injection h with h; subst h; simp)
    | (exact absurd h (by simp))
    | simp

/-- Every catalog cost is infinite or strictly positive. -/
theorem terrain_cost_pos (s : String) :
    Terrain.get_terrain_cost s = none ∨
      ∃ q, Terrain.get_terrain_cost s = some q ∧ Q2.Lt 0 q := by
  unfold Terrain.get_terrain_cost Terrain.get_terrain
  rcases h : Terrain.terrain_types.lookup (Terrain.strLower s) with _ | v
  · right
    exact ⟨Q2.ofRat 1, rfl, by with_unfolding_all decide⟩
  · simp only [Option.getD_some]
    rcases lookup_terrain_cases h with rfl | rfl | rfl | rfl | rfl | rfl
    · exact Or.inr ⟨Q2.ofRat 1, rfl, by with_unfolding_all decide⟩
    · exact Or.inr ⟨Q2.ofRat (13/10), rfl, by with_unfolding_all decide⟩
    · exact Or.inr ⟨Q2.ofRat (17/10), rfl, by with_unfolding_all decide⟩
    · exact Or.inl rfl
    · exact Or.inr ⟨Q2.ofRat (5/2), rfl, by with_unfolding_all decide⟩
    · exact Or.inr ⟨Q2.ofRat (7/10), rfl, by with_unfolding_all decide⟩

/-- Every edge cost is infinite or strictly positive. -/
theorem edge_cost_pos (G : Graph) (a b : Cell) :
    G.get_terrain_cost a b = none ∨
      ∃ q, G.get_terrain_cost a b = some q ∧ Q2.Lt 0 q := by
  unfold Graph.get_terrain_cost
  rcases terrain_cost_pos (G.terrain b) with h | ⟨q, h, hq⟩ <;> rw [h] <;> dsimp only
  · left; rfl
  · right
    split
    · exact ⟨q * Q2.sqrt2, rfl, Q2.pos_mul_sqrt2 hq⟩
    · exact ⟨q * Q2.ofRat 1, rfl, by
        have hone : q * Q2.ofRat 1 = q :=
          Q2.ext_ab (by simp [Q2.ofRat]) (by simp [Q2.ofRat])
        rw [hone]; exact hq⟩

/-- Frontier entries are the start or in-bounds walkable cells, and each
entry's secondary key is exactly the id of its node. -/
def OpenOk {κ : Type} (G : Graph) (idf : Cell → ℕ) (s : Cell)
    (l : List (Entry κ)) : Prop :=
  ∀ ent ∈ l, NodeOk G s ent.node ∧ ent.tid = idf ent.node

/-- Closed cells are the start or in-bounds walkable cells, and the end
cell is never closed. -/
def ClosedOk (G : Graph) (s e : Cell) (l : List Cell) : Prop :=
  ∀ c ∈ l, NodeOk G s c ∧ c ≠ e

/-- Parent links strictly decrease `g_cost`, and parents are the start or
in-bounds walkable cells. -/
def ParentOk (G : Graph) (s : Cell) (d : Dyn) : Prop :=
  ∀ n p, d.parent n = some p →
    CostI.Lt (d.g_cost p) (d.g_cost n) ∧ NodeOk G s p

/-- The loop invariant shared by both searches. -/
def LoopInv {κ : Type} (G : Graph) (idf : Cell → ℕ) (s e : Cell)
    (st : SState κ) : Prop :=
  OpenOk G idf s st.open_set ∧ ClosedOk G s e st.closed_set ∧ ParentOk G s st.dyn

theorem tentative_lt {G : Graph} {current neighbor : Cell} {d : Dyn}
    (h2 : CostI.Lt (CostI.add (d.g_cost current) (G.get_terrain_cost current neighbor))
      (d.g_cost neighbor)) :
    CostI.Lt (d.g_cost current)
      (CostI.add (d.g_cost current) (G.get_terrain_cost current neighbor)) := by
  rcases hg : d.g_cost current with _ | gc
  · rw [hg] at h2
    simp only [CostI.add] at h2
    exact absurd h2 (by simp [CostI.Lt])
  · rcases edge_cost_pos G current neighbor with hc | ⟨cq, hc, hcq⟩
    · rw [hg, hc] at h2
      simp only [CostI.add] at h2
      exact absurd h2 (by simp [CostI.Lt])
    · rw [hc]
      simp only [CostI.add, CostI.Lt]
      rw [Q2.lt_zero_iff] at hcq
      exact Q2.lt_of_nonneg_ne hcq.1 hcq.2 gc

theorem dijkstraRelax_inv (G : Graph) (idf : Cell → ℕ) (s e current : Cell)
    (hcur : NodeOk G s current) (st : SState CostI)
    (hInv : LoopInv G idf s e st) (neighbor : Cell)
    (hnb : G.inBounds neighbor ∧ G.walkable neighbor = true ∧ neighbor ≠ current) :
    LoopInv G idf s e (PathFinder.dijkstraRelax G idf current st neighbor) ∧
      (PathFinder.dijkstraRelax G idf current st neighbor).closed_set =
        st.closed_set := by
  obtain ⟨hopen, hclosed, hparent⟩ := hInv
  unfold PathFinder.dijkstraRelax
  by_cases h1 : neighbor ∈ st.closed_set
  · rw [if_pos h1]
    exact ⟨⟨hopen, hclosed, hparent⟩, rfl⟩
  rw [if_neg h1]
  dsimp only
  by_cases h2 : CostI.Lt
      (CostI.add (st.dyn.g_cost current) (G.get_terrain_cost current neighbor))
      (st.dyn.g_cost neighbor)
  swap
  · rw [if_neg h2]
    exact ⟨⟨hopen, hclosed, hparent⟩, rfl⟩
  rw [if_pos h2]
  have hcc : current ≠ neighbor := fun hc => hnb.2.2 hc.symm
  have hparent2 : ParentOk G s
      { st.dyn with
        parent := updFun st.dyn.parent neighbor (some current),
        g_cost := updFun st.dyn.g_cost neighbor
          (CostI.add (st.dyn.g_cost current) (G.get_terrain_cost current neighbor)) } := by
    intro n p hp
    simp only [updFun] at hp ⊢
    by_cases hn : n = neighbor
    · rw [if_pos hn] at hp
      injection hp with hp
      subst hp
      rw [if_pos hn, if_neg (fun h => hcc (h : current = neighbor))]
      exact ⟨tentative_lt h2, hcur⟩
    · rw [if_neg hn] at hp
      obtain ⟨hlt, hok⟩ := hparent n p hp
      rw [if_neg hn]
      by_cases hpn : p = neighbor
      · rw [if_pos hpn]
        subst hpn
        exact ⟨CostI.lt_transC h2 hlt, hok⟩
      · rw [if_neg hpn]
        exact ⟨hlt, hok⟩
  have hopen2 : ∀ k : CostI, OpenOk G idf s (st.open_set ++
      [⟨k, idf neighbor, neighbor⟩]) := by
    intro k ent hent
    rcases List.mem_append.mp hent with hl | hr
    · exact hopen ent hl
    · rcases List.mem_singleton.mp hr with rfl
      exact ⟨Or.inr ⟨hnb.1, hnb.2.1⟩, rfl⟩
  split
  · exact ⟨⟨hopen2 _, hclosed, hparent2⟩, rfl⟩
  · split
    · exact ⟨⟨hopen2 _, hclosed, hparent2⟩, rfl⟩
    · exact ⟨⟨hopen, hclosed, hparent2⟩, rfl⟩

theorem dijkstraRelax_foldl_inv (G : Graph) (idf : Cell → ℕ) (s e current : Cell)
    (hcur : NodeOk G s current) :
    ∀ (ns : List Cell) (st : SState CostI),
    (∀ n ∈ ns, G.inBounds n ∧ G.walkable n = true ∧ n ≠ current) →
    LoopInv G idf s e st →
    LoopInv G idf s e (ns.foldl (PathFinder.dijkstraRelax G idf current) st) ∧
      (ns.foldl (PathFinder.dijkstraRelax G idf current) st).closed_set = st.closed_set
  | [], st, _, hInv => ⟨hInv, rfl⟩
  | n :: ns, st, hns, hInv => by
    rw [List.foldl_cons]
    have h1 := dijkstraRelax_inv G idf s e current hcur st hInv n (hns n (by simp))
    have h2 := dijkstraRelax_foldl_inv G idf s e current hcur ns _
      (fun m hm => hns m (List.mem_cons_of_mem _ hm)) h1.1
    exact ⟨h2.1, h2.2.trans h1.2⟩

theorem dijkstraStep_inv (G : Graph) (idf : Cell → ℕ) (s e : Cell) (avoid : Bool)
    (st : SState CostI) (hInv : LoopInv G idf s e st) :
    (∀ st2, PathFinder.dijkstraStep G idf e avoid st = .next st2 →
      LoopInv G idf s e st2) ∧
    (∀ r, PathFinder.dijkstraStep G idf e avoid st = .done r →
      ClosedOk G s e r.closed_set ∧ ParentOk G s r.dyn) := by
  obtain ⟨hopen, hclosed, hparent⟩ := hInv
  unfold PathFinder.dijkstraStep
  rcases hpop : popMin PathFinder.dijkstraBefore st.open_set with _ | ⟨ent, rest⟩
  · refine ⟨fun st2 h => ?_, fun r h => ?_⟩
    · exact absurd h (by simp)
    · injection h with h
      subst h
      exact ⟨hclosed, hparent⟩
  · have hmem := popMin_mem PathFinder.dijkstraBefore hpop
    have hnodeok := hopen ent hmem.1
    dsimp only
    by_cases hend : ent.node = e
    · rw [if_pos hend]
      refine ⟨fun st2 h => ?_, fun r h => ?_⟩
      · exact absurd h (by simp)
      · injection h with h
        subst h
        exact ⟨hclosed, hparent⟩
    · rw [if_neg hend]
      by_cases hcl : ent.node ∈ st.closed_set
      · rw [if_pos hcl]
        refine ⟨fun st2 h => ?_, fun r h => ?_⟩
        · injection h with h
          subst h
          exact ⟨fun x hx => hopen x (hmem.2 x hx), hclosed, hparent⟩
        · exact absurd h (by simp)
      · rw [if_neg hcl]
        refine ⟨fun st2 h => ?_, fun r h => ?_⟩
        · injection h with h
          subst h
          have hst1 : LoopInv G idf s e
              { st with open_set := rest, closed_set := st.closed_set ++ [ent.node] } := by
            refine ⟨fun x hx => hopen x (hmem.2 x hx), ?_, hparent⟩
            intro c hc
            rcases List.mem_append.mp hc with hl | hr
            · exact hclosed c hl
            · rcases List.mem_singleton.mp hr with rfl
              exact ⟨hnodeok.1, hend⟩
          exact (dijkstraRelax_foldl_inv G idf s e ent.node hnodeok.1
            (G.get_neighbors ent.node avoid) _
            (fun m hm => mem_get_neighbors hm) hst1).1
        · exact absurd h (by simp)

theorem dijkstraIter_inv (G : Graph) (idf : Cell → ℕ) (s e : Cell) (avoid : Bool) :
    ∀ (k : ℕ) (st : SState CostI), LoopInv G idf s e st →
    LoopInv G idf s e (PathFinder.dijkstraIter G idf e avoid k st)
  | 0, st, hInv => hInv
  | k + 1, st, hInv => by
    unfold PathFinder.dijkstraIter
    rcases hstep : PathFinder.dijkstraStep G idf e avoid st with r | st2
    · exact hInv
    · exact dijkstraIter_inv G idf s e avoid k st2
        ((dijkstraStep_inv G idf s e avoid st hInv).1 st2 hstep)

theorem dijkstraLoop_inv (G : Graph) (idf : Cell → ℕ) (s e : Cell) (avoid : Bool) :
    ∀ (f : ℕ) (st : SState CostI), LoopInv G idf s e st →
    ClosedOk G s e (PathFinder.dijkstraLoop G idf e avoid f st).closed_set ∧
      ParentOk G s (PathFinder.dijkstraLoop G idf e avoid f st).dyn
  | 0, st, hInv => ⟨hInv.2.1, hInv.2.2⟩
  | f + 1, st, hInv => by
    unfold PathFinder.dijkstraLoop
    rcases hstep : PathFinder.dijkstraStep G idf e avoid st with r | st2
    · exact (dijkstraStep_inv G idf s e avoid st hInv).2 r hstep
    · exact dijkstraLoop_inv G idf s e avoid f st2
        ((dijkstraStep_inv G idf s e avoid st hInv).1 st2 hstep)

theorem dijkstraInit_inv (G : Graph) (dynIn : Dyn) (idf : Cell → ℕ) (s e : Cell) :
    LoopInv G idf s e (PathFinder.dijkstraInit G dynIn idf s) := by
  refine ⟨?_, ?_, ?_⟩
  · intro ent hent
    rcases List.mem_singleton.mp hent with rfl
    exact ⟨Or.inl rfl, rfl⟩
  · intro c hc
    exact absurd hc (List.not_mem_nil c)
  · intro n p hp
    exact absurd hp (by simp [PathFinder.dijkstraInit, Graph.reset_nodes])

theorem astarRelax_inv (G : Graph) (idf : Cell → ℕ) (s e current : Cell)
    (hcur : NodeOk G s current) (st : SState FKeyI)
    (hInv : LoopInv G idf s e st) (neighbor : Cell)
    (hnb : G.inBounds neighbor ∧ G.walkable neighbor = true ∧ neighbor ≠ current) :
    LoopInv G idf s e (PathFinder.astarRelax G idf e current st neighbor) ∧
      (PathFinder.astarRelax G idf e current st neighbor).closed_set =
        st.closed_set := by
  obtain ⟨hopen, hclosed, hparent⟩ := hInv
  unfold PathFinder.astarRelax
  by_cases h1 : neighbor ∈ st.closed_set
  · rw [if_pos h1]
    exact ⟨⟨hopen, hclosed, hparent⟩, rfl⟩
  rw [if_neg h1]
  dsimp only
  by_cases h2 : CostI.Lt
      (CostI.add (st.dyn.g_cost current) (G.get_terrain_cost current neighbor))
      (st.dyn.g_cost neighbor)
  swap
  · rw [if_neg h2]
    exact ⟨⟨hopen, hclosed, hparent⟩, rfl⟩
  rw [if_pos h2]
  have hcc : current ≠ neighbor := fun hc => hnb.2.2 hc.symm
  have hparent2 : ParentOk G s
      { st.dyn with
        parent := updFun st.dyn.parent neighbor (some current),
        g_cost := updFun st.dyn.g_cost neighbor
          (CostI.add (st.dyn.g_cost current) (G.get_terrain_cost current neighbor)),
        h_cost := updFun st.dyn.h_cost neighbor (PathFinder.heuristic neighbor e) } := by
    intro n p hp
    simp only [updFun] at hp ⊢
    by_cases hn : n = neighbor
    · rw [if_pos hn] at hp
      injection hp with hp
      subst hp
      rw [if_pos hn, if_neg (fun h => hcc (h : current = neighbor))]
      exact ⟨tentative_lt h2, hcur⟩
    · rw [if_neg hn] at hp
      obtain ⟨hlt, hok⟩ := hparent n p hp
      rw [if_neg hn]
      by_cases hpn : p = neighbor
      · rw [if_pos hpn]
        subst hpn
        exact ⟨CostI.lt_transC h2 hlt, hok⟩
      · rw [if_neg hpn]
        exact ⟨hlt, hok⟩
  have hopen2 : ∀ k : FKeyI, OpenOk G idf s (st.open_set ++
      [⟨k, idf neighbor, neighbor⟩]) := by
    intro k ent hent
    rcases List.mem_append.mp hent with hl | hr
    · exact hopen ent hl
    · rcases List.mem_singleton.mp hr with rfl
      exact ⟨Or.inr ⟨hnb.1, hnb.2.1⟩, rfl⟩
  split
  · exact ⟨⟨hopen2 _, hclosed, hparent2⟩, rfl⟩
  · split
    · exact ⟨⟨hopen2 _, hclosed, hparent2⟩, rfl⟩
    · exact ⟨⟨hopen, hclosed, hparent2⟩, rfl⟩

theorem astarRelax_foldl_inv (G : Graph) (idf : Cell → ℕ) (s e current : Cell)
    (hcur : NodeOk G s current) :
    ∀ (ns : List Cell) (st : SState FKeyI),
    (∀ n ∈ ns, G.inBounds n ∧ G.walkable n = true ∧ n ≠ current) →
    LoopInv G idf s e st →
    LoopInv G idf s e (ns.foldl (PathFinder.astarRelax G idf e current) st) ∧
      (ns.foldl (PathFinder.astarRelax G idf e current) st).closed_set = st.closed_set
  | [], st, _, hInv => ⟨hInv, rfl⟩
  | n :: ns, st, hns, hInv => by
    rw [List.foldl_cons]
    have h1 := astarRelax_inv G idf s e current hcur st hInv n (hns n (by simp))
    have h2 := astarRelax_foldl_inv G idf s e current hcur ns _
      (fun m hm => hns m (List.mem_cons_of_mem _ hm)) h1.1
    exact ⟨h2.1, h2.2.trans h1.2⟩

theorem astarStep_inv (G : Graph) (idf : Cell → ℕ) (s e : Cell) (avoid : Bool)
    (st : SState FKeyI) (hInv : LoopInv G idf s e st) :
    (∀ st2, PathFinder.astarStep G idf e avoid st = .next st2 →
      LoopInv G idf s e st2) ∧
    (∀ r, PathFinder.astarStep G idf e avoid st = .done r →
      ClosedOk G s e r.closed_set ∧ ParentOk G s r.dyn) := by
  obtain ⟨hopen, hclosed, hparent⟩ := hInv
  unfold PathFinder.astarStep
  rcases hpop : popMin PathFinder.astarBefore st.open_set with _ | ⟨ent, rest⟩
  · refine ⟨fun st2 h => ?_, fun r h => ?_⟩
    · exact absurd h (by simp)
    · injection h with h
      subst h
      exact ⟨hclosed, hparent⟩
  · have hmem := popMin_mem PathFinder.astarBefore hpop
    have hnodeok := hopen ent hmem.1
    dsimp only
    by_cases hend : ent.node = e
    · rw [if_pos hend]
      refine ⟨fun st2 h => ?_, fun r h => ?_⟩
      · exact absurd h (by simp)
      · injection h with h
        subst h
        exact ⟨hclosed, hparent⟩
    · rw [if_neg hend]
      by_cases hcl : ent.node ∈ st.closed_set
      · rw [if_pos hcl]
        refine ⟨fun st2 h => ?_, fun r h => ?_⟩
        · injection h with h
          subst h
          exact ⟨fun x hx => hopen x (hmem.2 x hx), hclosed, hparent⟩
        · exact absurd h (by simp)
      · rw [if_neg hcl]
        refine ⟨fun st2 h => ?_, fun r h => ?_⟩
        · injection h with h
          subst h
          have hst1 : LoopInv G idf s e
              { st with open_set := rest, closed_set := st.closed_set ++ [ent.node] } := by
            refine ⟨fun x hx => hopen x (hmem.2 x hx), ?_, hparent⟩
            intro c hc
            rcases List.mem_append.mp hc with hl | hr
            · exact hclosed c hl
            · rcases List.mem_singleton.mp hr with rfl
              exact ⟨hnodeok.1, hend⟩
          exact (astarRelax_foldl_inv G idf s e ent.node hnodeok.1
            (G.get_neighbors ent.node avoid) _
            (fun m hm => mem_get_neighbors hm) hst1).1
        · exact absurd h (by simp)

theorem astarIter_inv (G : Graph) (idf : Cell → ℕ) (s e : Cell) (avoid : Bool) :
    ∀ (k : ℕ) (st : SState FKeyI), LoopInv G idf s e st →
    LoopInv G idf s e (PathFinder.astarIter G idf e avoid k st)
  | 0, _, hInv => hInv
  | k + 1, st, hInv => by
    unfold PathFinder.astarIter
    rcases hstep : PathFinder.astarStep G idf e avoid st with r | st2
    · exact hInv
    · exact astarIter_inv G idf s e avoid k st2
        ((astarStep_inv G idf s e avoid st hInv).1 st2 hstep)

theorem astarLoop_inv (G : Graph) (idf : Cell → ℕ) (s e : Cell) (avoid : Bool) :
    ∀ (f : ℕ) (st : SState FKeyI), LoopInv G idf s e st →
    ClosedOk G s e (PathFinder.astarLoop G idf e avoid f st).closed_set ∧
      ParentOk G s (PathFinder.astarLoop G idf e avoid f st).dyn
  | 0, _, hInv => ⟨hInv.2.1, hInv.2.2⟩
  | f + 1, st, hInv => by
    unfold PathFinder.astarLoop
    rcases hstep : PathFinder.astarStep G idf e avoid st with r | st2
    · exact (astarStep_inv G idf s e avoid st hInv).2 r hstep
    · exact astarLoop_inv G idf s e avoid f st2
        ((astarStep_inv G idf s e avoid st hInv).1 st2 hstep)

theorem astarInit_inv (G : Graph) (dynIn : Dyn) (idf : Cell → ℕ) (s e : Cell) :
    LoopInv G idf s e (PathFinder.astarInit G dynIn idf s e) := by
  refine ⟨?_, ?_, ?_⟩
  · intro ent hent
    rcases List.mem_singleton.mp hent with rfl
    exact ⟨Or.inl rfl, rfl⟩
  · intro c hc
    exact absurd hc (List.not_mem_nil c)
  · intro n p hp
    exact absurd hp (by simp [PathFinder.astarInit, Graph.reset_nodes])

/-- Iterated `parent` dereference (`j` steps). -/
def parentIter (d : Dyn) : ℕ → Cell → Option Cell
  | 0, c => some c
  | j + 1, c => (parentIter d j c).bind d.parent

theorem parentIter_add (d : Dyn) (a : ℕ) :
    ∀ (b : ℕ) (n : Cell), parentIter d (a + b) n =
      (parentIter d a n).bind (fun m => parentIter d b m)
  | 0, n => by simp [parentIter]
  | b + 1, n => by
    have h := parentIter_add d a b n
    show parentIter d (a + b + 1) n = _
    simp only [parentIter, h]
    rcases parentIter d a n with _ | m
    · simp
    · simp [parentIter]

theorem parentIter_chain_lt {G : Graph} {s : Cell} {d : Dyn} (hpo : ParentOk G s d) :
    ∀ (j : ℕ) (n m : Cell), parentIter d j n = some m → 0 < j →
      CostI.Lt (d.g_cost m) (d.g_cost n) ∧ NodeOk G s m
  | 0, n, m => fun _ h0 => absurd h0 (by omega)
  | j + 1, n, m => by
    intro h _
    simp only [parentIter] at h
    rcases hj : parentIter d j n with _ | m2
    · rw [hj] at h
      exact absurd h (by simp)
    · rw [hj] at h
      simp only [Option.some_bind] at h
      rcases Nat.eq_zero_or_pos j with rfl | hjpos
      · simp only [parentIter, Option.some.injEq] at hj
        subst hj
        exact hpo n m h
      · have ih := parentIter_chain_lt hpo j n m2 hj hjpos
        have hp := hpo m2 m h
        exact ⟨CostI.lt_transC hp.1 ih.1, hp.2⟩

theorem parentIter_no_cycle {G : Graph} {s : Cell} {d : Dyn} (hpo : ParentOk G s d)
    (n : Cell) (j : ℕ) (hj : 0 < j) (hcyc : parentIter d j n = some n) : False :=
  CostI.lt_irreflC _ (parentIter_chain_lt hpo j n n hcyc hj).1

theorem parentIter_some_of_le {d : Dyn} {n : Cell} :
    ∀ {i j : ℕ}, i ≤ j → ∀ {m : Cell}, parentIter d j n = some m →
      ∃ m2, parentIter d i n = some m2 := by
  intro i j hle
  induction j with
  | zero =>
    intro m h
    have h0 : i = 0 := by omega
    subst h0
    exact ⟨m, h⟩
  | succ j ih =>
    intro m h
    rcases Nat.eq_or_lt_of_le hle with rfl | hlt
    · exact ⟨m, h⟩
    · simp only [parentIter] at h
      rcases hj : parentIter d j n with _ | m2
      · rw [hj] at h
        exact absurd h (by simp)
      · exact ih (by omega) hj

/-- The set of cells a parent chain can visit after its head. -/
def nodeOkFinset (G : Graph) (s : Cell) : Finset Cell :=
  insert s ((Finset.Ico (0 : ℤ) G.width) ×ˢ (Finset.Ico (0 : ℤ) G.height))

theorem mem_nodeOkFinset {G : Graph} {s c : Cell} (h : NodeOk G s c) :
    c ∈ nodeOkFinset G s := by
  rcases h with rfl | ⟨hin, _⟩
  · exact Finset.mem_insert_self c _
  · refine Finset.mem_insert_of_mem ?_
    rw [Finset.mem_product]
    obtain ⟨h1, h2, h3, h4⟩ := hin
    exact ⟨Finset.mem_Ico.mpr ⟨h1, h2⟩, Finset.mem_Ico.mpr ⟨h3, h4⟩⟩

theorem nodeOkFinset_card (G : Graph) (s : Cell) :
    (nodeOkFinset G s).card ≤ G.width.toNat * G.height.toNat + 1 := by
  unfold nodeOkFinset
  have h1 := Finset.card_insert_le s
    ((Finset.Ico (0 : ℤ) G.width) ×ˢ (Finset.Ico (0 : ℤ) G.height))
  have h2 : ((Finset.Ico (0 : ℤ) G.width) ×ˢ (Finset.Ico (0 : ℤ) G.height)).card =
      G.width.toNat * G.height.toNat := by
    rw [Finset.card_product, Int.card_Ico, Int.card_Ico]
    simp
  omega

/-- Any parent chain reaches `none` within `fuelOf` steps: the cells after
the head are pairwise distinct (their `g_cost` strictly decreases along
the chain) and all lie in the finite set of frontier-eligible cells. -/
theorem parentIter_exhausts {G : Graph} {s : Cell} {d : Dyn} (hpo : ParentOk G s d)
    (n : Cell) : parentIter d G.fuelOf n = none := by
  by_contra hc
  rcases hne : parentIter d G.fuelOf n with _ | m
  · exact hc hne
  clear hc
  have hsome : ∀ i : ℕ, i ≤ G.fuelOf → ∃ m2, parentIter d i n = some m2 :=
    fun i hi => parentIter_some_of_le hi hne
  -- the cell at chain position i+1
  have hpos : ∀ i : ℕ, i + 1 ≤ G.fuelOf →
      ∃ m2, parentIter d (i + 1) n = some m2 ∧ NodeOk G s m2 := by
    intro i hi
    obtain ⟨m2, hm2⟩ := hsome (i + 1) hi
    exact ⟨m2, hm2, (parentIter_chain_lt hpo (i + 1) n m2 hm2 (by omega)).2⟩
  set B := G.width.toNat * G.height.toNat + 1 with hB
  have hfuel : G.fuelOf = B + 1 := by
    simp [Graph.fuelOf, hB]
  let f : ℕ → Cell := fun i => (parentIter d (i + 1) n).getD s
  have hfmem : ∀ i ∈ Finset.range (B + 1), f i ∈ nodeOkFinset G s := by
    intro i hi
    obtain ⟨m2, hm2, hok⟩ := hpos i (by
      rw [hfuel]
      exact Nat.succ_le_succ (Nat.lt_succ_iff.mp (Finset.mem_range.mp hi)))
    simp only [f, hm2, Option.getD_some]
    exact mem_nodeOkFinset hok
  have hinj : Set.InjOn f (Finset.range (B + 1)) := by
    intro i hi j hj hij
    simp only [Finset.coe_range, Set.mem_Iio] at hi hj
    by_contra hne2
    rcases Nat.lt_or_ge i j with hlt | hge
    · obtain ⟨mi, hmi⟩ := hsome (i + 1) (by omega)
      obtain ⟨mj, hmj⟩ := hsome (j + 1) (by omega)
      have hadd : parentIter d ((i + 1) + (j - i)) n =
          (parentIter d (i + 1) n).bind (fun m => parentIter d (j - i) m) :=
        parentIter_add d (i + 1) (j - i) n
      have hij2 : (i + 1) + (j - i) = j + 1 := by omega
      rw [hij2, hmj, hmi] at hadd
      simp only [Option.some_bind] at hadd
      have hchain := parentIter_chain_lt hpo (j - i) mi mj hadd.symm (by omega)
      have hfi : f i = mi := by simp [f, hmi]
      have hfj : f j = mj := by simp [f, hmj]
      rw [hfi, hfj] at hij
      subst hij
      exact CostI.lt_irreflC _ hchain.1
    · have hlt2 : j < i := by omega
      obtain ⟨mi, hmi⟩ := hsome (i + 1) (by omega)
      obtain ⟨mj, hmj⟩ := hsome (j + 1) (by omega)
      have hadd : parentIter d ((j + 1) + (i - j)) n =
          (parentIter d (j + 1) n).bind (fun m => parentIter d (i - j) m) :=
        parentIter_add d (j + 1) (i - j) n
      have hij2 : (j + 1) + (i - j) = i + 1 := by omega
      rw [hij2, hmj, hmi] at hadd
      simp only [Option.some_bind] at hadd
      have hchain := parentIter_chain_lt hpo (i - j) mj mi hadd.symm (by omega)
      have hfi : f i = mi := by simp [f, hmi]
      have hfj : f j = mj := by simp [f, hmj]
      rw [hfi, hfj] at hij
      rw [hij] at hchain
      exact CostI.lt_irreflC _ hchain.1
  have hcard := Finset.card_le_card_of_injOn f hfmem hinj
  rw [Finset.card_range] at hcard
  have := nodeOkFinset_card G s
  omega

theorem dictSet_lookup_ne {k k2 : ℕ} (v : Cell) (hne : k ≠ k2) :
    ∀ l : List (ℕ × Cell), (dictSet k2 v l).lookup k = l.lookup k
  | [] => by
    have hb : (k == k2) = false := beq_eq_false_iff_ne.mpr hne
    simp [dictSet, List.lookup, hb]
  | (k3, v3) :: rest => by
    have hb : (k == k2) = false := beq_eq_false_iff_ne.mpr hne
    unfold dictSet
    by_cases h23 : k2 = k3
    · rw [if_pos h23]
      have hb3 : (k == k3) = false := beq_eq_false_iff_ne.mpr (h23 ▸ hne)
      simp [List.lookup, hb, hb3]
    · rw [if_neg h23]
      simp only [List.lookup]
      cases h3 : (k == k3)
      · simp only [h3]
        exact dictSet_lookup_ne v hne rest
      · simp only [h3]

/-- The predicate "this frontier entry belongs to cell `n`". -/
def entIs {κ : Type} (n : Cell) : Entry κ → Bool := fun ent => ent.node == n

theorem dijkstraRelax_no_repush (G : Graph) (idf : Cell → ℕ) (current n : Cell)
    (hinj : ∀ c1 c2 : Cell, idf c1 = idf c2 → c1 = c2)
    (st : SState CostI) (hdict : st.open_set_dict.lookup (idf n) = some n)
    (nb : Cell) :
    (PathFinder.dijkstraRelax G idf current st nb).open_set.countP (entIs n) =
      st.open_set.countP (entIs n) ∧
    (PathFinder.dijkstraRelax G idf current st nb).open_set_dict.lookup (idf n) =
      some n := by
  unfold PathFinder.dijkstraRelax
  by_cases h1 : nb ∈ st.closed_set
  · rw [if_pos h1]
    exact ⟨rfl, hdict⟩
  rw [if_neg h1]
  dsimp only
  by_cases h2 : CostI.Lt
      (CostI.add (st.dyn.g_cost current) (G.get_terrain_cost current nb))
      (st.dyn.g_cost nb)
  swap
  · rw [if_neg h2]
    exact ⟨rfl, hdict⟩
  rw [if_pos h2]
  by_cases hn : nb = n
  · subst hn
    rw [hdict]
    dsimp only
    rw [if_neg (by simp)]
    exact ⟨rfl, hdict⟩
  · have hkey : idf n ≠ idf nb := fun h => hn (hinj n nb h).symm
    have hpush : ∀ k : CostI,
        (st.open_set ++ [(⟨k, idf nb, nb⟩ : Entry CostI)]).countP (entIs n) =
          st.open_set.countP (entIs n) := by
      intro k
      rw [List.countP_append]
      simp [entIs, hn]
    rcases hlk : st.open_set_dict.lookup (idf nb) with _ | nd
    · dsimp only
      exact ⟨hpush _, by rw [dictSet_lookup_ne nb hkey]; exact hdict⟩
    · dsimp only
      by_cases hnd : nd ≠ nb
      · rw [if_pos hnd]
        exact ⟨hpush _, by rw [dictSet_lookup_ne nb hkey]; exact hdict⟩
      · rw [if_neg hnd]
        exact ⟨rfl, hdict⟩

theorem dijkstraRelax_foldl_no_repush (G : Graph) (idf : Cell → ℕ) (current n : Cell)
    (hinj : ∀ c1 c2 : Cell, idf c1 = idf c2 → c1 = c2) :
    ∀ (ns : List Cell) (st : SState CostI),
    st.open_set_dict.lookup (idf n) = some n →
    (ns.foldl (PathFinder.dijkstraRelax G idf current) st).open_set.countP (entIs n) =
      st.open_set.countP (entIs n) ∧
    (ns.foldl (PathFinder.dijkstraRelax G idf current) st).open_set_dict.lookup (idf n) =
      some n
  | [], st, hdict => ⟨rfl, hdict⟩
  | nb :: ns, st, hdict => by
    rw [List.foldl_cons]
    have h1 := dijkstraRelax_no_repush G idf current n hinj st hdict nb
    have h2 := dijkstraRelax_foldl_no_repush G idf current n hinj ns _ h1.2
    exact ⟨h2.1.trans h1.1, h2.2⟩

theorem dijkstraStep_no_repush (G : Graph) (idf : Cell → ℕ) (e : Cell) (avoid : Bool)
    (n : Cell) (hinj : ∀ c1 c2 : Cell, idf c1 = idf c2 → c1 = c2)
    (st st2 : SState CostI) (hdict : st.open_set_dict.lookup (idf n) = some n)
    (hstep : PathFinder.dijkstraStep G idf e avoid st = .next st2) :
    st2.open_set.countP (entIs n) ≤ st.open_set.countP (entIs n) ∧
    st2.open_set_dict.lookup (idf n) = some n := by
  unfold PathFinder.dijkstraStep at hstep
  rcases hpop : popMin PathFinder.dijkstraBefore st.open_set with _ | ⟨ent, rest⟩
  · rw [hpop] at hstep
    exact absurd hstep (by simp)
  rw [hpop] at hstep
  have hcount := popMin_countP PathFinder.dijkstraBefore (entIs n) hpop
  dsimp only at hstep
  by_cases hend : ent.node = e
  · rw [if_pos hend] at hstep
    exact absurd hstep (by simp)
  rw [if_neg hend] at hstep
  by_cases hcl : ent.node ∈ st.closed_set
  · rw [if_pos hcl] at hstep
    injection hstep with hstep
    subst hstep
    exact ⟨hcount, hdict⟩
  · rw [if_neg hcl] at hstep
    injection hstep with hstep
    subst hstep
    have hfold := dijkstraRelax_foldl_no_repush G idf ent.node n hinj
      (G.get_neighbors ent.node avoid)
      { st with open_set := rest, closed_set := st.closed_set ++ [ent.node] } hdict
    exact ⟨hfold.1.le.trans hcount, hfold.2⟩

theorem dijkstraIter_succ (G : Graph) (idf : Cell → ℕ) (e : Cell) (avoid : Bool) :
    ∀ (k : ℕ) (st : SState CostI),
    PathFinder.dijkstraIter G idf e avoid (k + 1) st =
      (match PathFinder.dijkstraStep G idf e avoid
          (PathFinder.dijkstraIter G idf e avoid k st) with
       | .done _ => PathFinder.dijkstraIter G idf e avoid k st
       | .next st2 => st2)
  | 0, st => by
    show PathFinder.dijkstraIter G idf e avoid 1 st = _
    unfold PathFinder.dijkstraIter
    rcases h : PathFinder.dijkstraStep G idf e avoid st with r | st2 <;> rfl
  | k + 1, st => by
    conv_lhs => unfold PathFinder.dijkstraIter
    rcases h : PathFinder.dijkstraStep G idf e avoid st with r | st2
    · have hk : PathFinder.dijkstraIter G idf e avoid (k + 1) st = st := by
        unfold PathFinder.dijkstraIter
        rw [h]
      rw [hk, h]
    · have hk : PathFinder.dijkstraIter G idf e avoid (k + 1) st =
          PathFinder.dijkstraIter G idf e avoid k st2 := by
        conv_lhs => unfold PathFinder.dijkstraIter
        rw [h]
      rw [hk]
      exact dijkstraIter_succ G idf e avoid k st2

theorem astarRelax_no_repush (G : Graph) (idf : Cell → ℕ) (endc current n : Cell)
    (hinj : ∀ c1 c2 : Cell, idf c1 = idf c2 → c1 = c2)
    (st : SState FKeyI) (hdict : st.open_set_dict.lookup (idf n) = some n)
    (nb : Cell) :
    (PathFinder.astarRelax G idf endc current st nb).open_set.countP (entIs n) =
      st.open_set.countP (entIs n) ∧
    (PathFinder.astarRelax G idf endc current st nb).open_set_dict.lookup (idf n) =
      some n := by
  unfold PathFinder.astarRelax
  by_cases h1 : nb ∈ st.closed_set
  · rw [if_pos h1]
    exact ⟨rfl, hdict⟩
  rw [if_neg h1]
  dsimp only
  by_cases h2 : CostI.Lt
      (CostI.add (st.dyn.g_cost current) (G.get_terrain_cost current nb))
      (st.dyn.g_cost nb)
  swap
  · rw [if_neg h2]
    exact ⟨rfl, hdict⟩
  rw [if_pos h2]
  by_cases hn : nb = n
  · subst hn
    rw [hdict]
    dsimp only
    rw [if_neg (by simp)]
    exact ⟨rfl, hdict⟩
  · have hkey : idf n ≠ idf nb := fun h => hn (hinj n nb h).symm
    have hpush : ∀ k : FKeyI,
        (st.open_set ++ [(⟨k, idf nb, nb⟩ : Entry FKeyI)]).countP (entIs n) =
          st.open_set.countP (entIs n) := by
      intro k
      rw [List.countP_append]
      simp [entIs, hn]
    rcases hlk : st.open_set_dict.lookup (idf nb) with _ | nd
    · dsimp only
      exact ⟨hpush _, by rw [dictSet_lookup_ne nb hkey]; exact hdict⟩
    · dsimp only
      by_cases hnd : nd ≠ nb
      · rw [if_pos hnd]
        exact ⟨hpush _, by rw [dictSet_lookup_ne nb hkey]; exact hdict⟩
      · rw [if_neg hnd]
        exact ⟨rfl, hdict⟩

theorem astarRelax_foldl_no_repush (G : Graph) (idf : Cell → ℕ) (endc current n : Cell)
    (hinj : ∀ c1 c2 : Cell, idf c1 = idf c2 → c1 = c2) :
    ∀ (ns : List Cell) (st : SState FKeyI),
    st.open_set_dict.lookup (idf n) = some n →
    (ns.foldl (PathFinder.astarRelax G idf endc current) st).open_set.countP (entIs n) =
      st.open_set.countP (entIs n) ∧
    (ns.foldl (PathFinder.astarRelax G idf endc current) st).open_set_dict.lookup (idf n) =
      some n
  | [], st, hdict => ⟨rfl, hdict⟩
  | nb :: ns, st, hdict => by
    rw [List.foldl_cons]
    have h1 := astarRelax_no_repush G idf endc current n hinj st hdict nb
    have h2 := astarRelax_foldl_no_repush G idf endc current n hinj ns _ h1.2
    exact ⟨h2.1.trans h1.1, h2.2⟩

theorem astarStep_no_repush (G : Graph) (idf : Cell → ℕ) (e : Cell) (avoid : Bool)
    (n : Cell) (hinj : ∀ c1 c2 : Cell, idf c1 = idf c2 → c1 = c2)
    (st st2 : SState FKeyI) (hdict : st.open_set_dict.lookup (idf n) = some n)
    (hstep : PathFinder.astarStep G idf e avoid st = .next st2) :
    st2.open_set.countP (entIs n) ≤ st.open_set.countP (entIs n) ∧
    st2.open_set_dict.lookup (idf n) = some n := by
  unfold PathFinder.astarStep at hstep
  rcases hpop : popMin PathFinder.astarBefore st.open_set with _ | ⟨ent, rest⟩
  · rw [hpop] at hstep
    exact absurd hstep (by simp)
  rw [hpop] at hstep
  have hcount := popMin_countP PathFinder.astarBefore (entIs n) hpop
  dsimp only at hstep
  by_cases hend : ent.node = e
  · rw [if_pos hend] at hstep
    exact absurd hstep (by simp)
  rw [if_neg hend] at hstep
  by_cases hcl : ent.node ∈ st.closed_set
  · rw [if_pos hcl] at hstep
    injection hstep with hstep
    subst hstep
    exact ⟨hcount, hdict⟩
  · rw [if_neg hcl] at hstep
    injection hstep with hstep
    subst hstep
    have hfold := astarRelax_foldl_no_repush G idf e ent.node n hinj
      (G.get_neighbors ent.node avoid)
      { st with open_set := rest, closed_set := st.closed_set ++ [ent.node] } hdict
    exact ⟨hfold.1.le.trans hcount, hfold.2⟩

theorem astarIter_succ (G : Graph) (idf : Cell → ℕ) (e : Cell) (avoid : Bool) :
    ∀ (k : ℕ) (st : SState FKeyI),
    PathFinder.astarIter G idf e avoid (k + 1) st =
      (match PathFinder.astarStep G idf e avoid
          (PathFinder.astarIter G idf e avoid k st) with
       | .done _ => PathFinder.astarIter G idf e avoid k st
       | .next st2 => st2)
  | 0, st => by
    show PathFinder.astarIter G idf e avoid 1 st = _
    unfold PathFinder.astarIter
    rcases h : PathFinder.astarStep G idf e avoid st with r | st2 <;> rfl
  | k + 1, st => by
    conv_lhs => unfold PathFinder.astarIter
    rcases h : PathFinder.astarStep G idf e avoid st with r | st2
    · have hk : PathFinder.astarIter G idf e avoid (k + 1) st = st := by
        unfold PathFinder.astarIter
        rw [h]
      rw [hk, h]
    · have hk : PathFinder.astarIter G idf e avoid (k + 1) st =
          PathFinder.astarIter G idf e avoid k st2 := by
        conv_lhs => unfold PathFinder.astarIter
        rw [h]
      rw [hk]
      exact astarIter_succ G idf e avoid k st2

theorem dijkstraIter_no_repush (G : Graph) (idf : Cell → ℕ) (e : Cell) (avoid : Bool)
    (n : Cell) (hinj : ∀ c1 c2 : Cell, idf c1 = idf c2 → c1 = c2) :
    ∀ (k : ℕ) (st : SState CostI),
    st.open_set_dict.lookup (idf n) = some n →
    (PathFinder.dijkstraIter G idf e avoid k st).open_set.countP (entIs n) ≤
      st.open_set.countP (entIs n) ∧
    (PathFinder.dijkstraIter G idf e avoid k st).open_set_dict.lookup (idf n) = some n
  | 0, st, hd => ⟨le_refl _, hd⟩
  | k + 1, st, hd => by
    unfold PathFinder.dijkstraIter
    rcases hstep : PathFinder.dijkstraStep G idf e avoid st with r | st2
    · exact ⟨le_refl _, hd⟩
    · have h1 := dijkstraStep_no_repush G idf e avoid n hinj st st2 hd hstep
      have h2 := dijkstraIter_no_repush G idf e avoid n hinj k st2 h1.2
      exact ⟨h2.1.trans h1.1, h2.2⟩

theorem astarIter_no_repush (G : Graph) (idf : Cell → ℕ) (e : Cell) (avoid : Bool)
    (n : Cell) (hinj : ∀ c1 c2 : Cell, idf c1 = idf c2 → c1 = c2) :
    ∀ (k : ℕ) (st : SState FKeyI),
    st.open_set_dict.lookup (idf n) = some n →
    (PathFinder.astarIter G idf e avoid k st).open_set.countP (entIs n) ≤
      st.open_set.countP (entIs n) ∧
    (PathFinder.astarIter G idf e avoid k st).open_set_dict.lookup (idf n) = some n
  | 0, st, hd => ⟨le_refl _, hd⟩
  | k + 1, st, hd => by
    unfold PathFinder.astarIter
    rcases hstep : PathFinder.astarStep G idf e avoid st with r | st2
    · exact ⟨le_refl _, hd⟩
    · have h1 := astarStep_no_repush G idf e avoid n hinj st st2 hd hstep
      have h2 := astarIter_no_repush G idf e avoid n hinj k st2 h1.2
      exact ⟨h2.1.trans h1.1, h2.2⟩

/-- An injective encoding of a signed coordinate, standing in for a
memory-id assignment that gives distinct nodes distinct ids. -/
def intCode (z : ℤ) : ℕ := if 0 ≤ z then 2 * z.toNat else 2 * (-z).toNat - 1

/-- An injective id assignment on cells. -/
def idPair (c : Cell) : ℕ := Nat.pair (intCode c.1) (intCode c.2)

theorem intCode_inj : ∀ z1 z2 : ℤ, intCode z1 = intCode z2 → z1 = z2 := by
  unfold intCode
  intro z1 z2
  split <;> split <;> omega

theorem idPair_inj : ∀ c1 c2 : Cell, idPair c1 = idPair c2 → c1 = c2 := by
  intro ⟨x1, y1⟩ ⟨x2, y2⟩ h
  unfold idPair at h
  have h2 := Nat.pair_eq_pair.mp h
  exact Prod.ext (intCode_inj _ _ h2.1) (intCode_inj _ _ h2.2)

/-- `parent` links strictly decrease `g_cost`, chains never revisit their
head, and every chain falls off to `None` within `fuelOf` dereferences (so
`reconstruct_path`, which dereferences at most that often, terminates). -/
def WellFormedParents (G : Graph) (d : Dyn) : Prop :=
  (∀ n p, d.parent n = some p → CostI.Lt (d.g_cost p) (d.g_cost n)) ∧
  (∀ n j, parentIter d (j + 1) n ≠ some n) ∧
  (∀ n, parentIter d G.fuelOf n = none)

theorem wellFormedParents_of_parentOk {G : Graph} {s : Cell} {d : Dyn}
    (hpo : ParentOk G s d) : WellFormedParents G d :=
  ⟨fun n p hp => (hpo n p hp).1,
   fun n j hcyc => parentIter_no_cycle hpo n (j + 1) (Nat.succ_pos j) hcyc,
   fun n => parentIter_exhausts hpo n⟩

/-- C2 (amended): in both searches the returned closed set contains only
the start cell or in-bounds walkable cells, and the end cell is never a
member of the closed set (the loop returns upon popping the end, before
closing it), whether or not a path was found. -/
theorem closed_cells_walkable_and_end_never_closed
    (G : Graph) (dynIn : Dyn) (idf : Cell → ℕ) (s e : Cell) (avoid : Bool) :
    (∀ c ∈ (PathFinder.dijkstra G dynIn idf s e avoid).closed_set,
        (c = s ∨ (G.inBounds c ∧ G.walkable c = true)) ∧ c ≠ e) ∧
    (∀ c ∈ (PathFinder.a_star G dynIn idf s e avoid).closed_set,
        (c = s ∨ (G.inBounds c ∧ G.walkable c = true)) ∧ c ≠ e) := by
  constructor
  · intro c hc
    exact (dijkstraLoop_inv G idf s e avoid G.fuelOf _
      (dijkstraInit_inv G dynIn idf s e)).1 c hc
  · intro c hc
    exact (astarLoop_inv G idf s e avoid G.fuelOf _
      (astarInit_inv G dynIn idf s e)).1 c hc

/-- Witness for C2 at the concrete run `wsGrid`, start `(0,0)`, end `(0,1)`. -/
theorem closed_cells_walkable_and_end_never_closed_witness :
    (∀ c ∈ (PathFinder.dijkstra wsGrid Dyn.fresh idL2 (0, 0) (0, 1) true).closed_set,
        (c = (0, 0) ∨ (wsGrid.inBounds c ∧ wsGrid.walkable c = true)) ∧ c ≠ (0, 1)) ∧
    (∀ c ∈ (PathFinder.a_star wsGrid Dyn.fresh idL2 (0, 0) (0, 1) true).closed_set,
        (c = (0, 0) ∨ (wsGrid.inBounds c ∧ wsGrid.walkable c = true)) ∧ c ≠ (0, 1)) :=
  closed_cells_walkable_and_end_never_closed wsGrid Dyn.fresh idL2 (0, 0) (0, 1) true

/-- C4 (amended): both algorithms break priority ties with the node's
object identity `id(...)` as the secondary key, not an insertion counter:
at every iteration of either loop, every frontier entry's tie-break field
equals the id of its node under the run's id assignment `idf`.  (That the
returned path is NOT independent of the id assignment is the separate
counterexample `dijkstra_path_depends_on_id_assignment`.) -/
theorem frontier_tie_break_key_is_node_id
    (G : Graph) (dynIn : Dyn) (idf : Cell → ℕ) (s e : Cell) (avoid : Bool) (k : ℕ) :
    (∀ ent ∈ (PathFinder.dijkstraIter G idf e avoid k
        (PathFinder.dijkstraInit G dynIn idf s)).open_set, ent.tid = idf ent.node) ∧
    (∀ ent ∈ (PathFinder.astarIter G idf e avoid k
        (PathFinder.astarInit G dynIn idf s e)).open_set, ent.tid = idf ent.node) := by
  constructor
  · intro ent hent
    exact ((dijkstraIter_inv G idf s e avoid k _
      (dijkstraInit_inv G dynIn idf s e)).1 ent hent).2
  · intro ent hent
    exact ((astarIter_inv G idf s e avoid k _
      (astarInit_inv G dynIn idf s e)).1 ent hent).2

/-- Witness for C4 at the concrete run `mtGrid` with id map `idL2`, 3 steps. -/
theorem frontier_tie_break_key_is_node_id_witness :
    (∀ ent ∈ (PathFinder.dijkstraIter mtGrid idL2 (1, 1) true 3
        (PathFinder.dijkstraInit mtGrid Dyn.fresh idL2 (0, 0))).open_set,
        ent.tid = idL2 ent.node) ∧
    (∀ ent ∈ (PathFinder.astarIter mtGrid idL2 (1, 1) true 3
        (PathFinder.astarInit mtGrid Dyn.fresh idL2 (0, 0) (1, 1))).open_set,
        ent.tid = idL2 ent.node) :=
  frontier_tie_break_key_is_node_id mtGrid Dyn.fresh idL2 (0, 0) (1, 1) true 3

/-- C8: during every run of either search — after the full loop
(`dijkstra`, `a_star`) and after any number `k` of loop iterations —
parent links never form a cycle: every parent link strictly decreases
`g_cost`, no chain of one or more parent dereferences returns to its
starting cell, and every parent chain falls off to `None` within `fuelOf`
steps, so path reconstruction terminates. -/
theorem parent_links_never_cycle
    (G : Graph) (dynIn : Dyn) (idf : Cell → ℕ) (s e : Cell) (avoid : Bool) (k : ℕ) :
    WellFormedParents G (PathFinder.dijkstra G dynIn idf s e avoid).dyn ∧
    WellFormedParents G (PathFinder.a_star G dynIn idf s e avoid).dyn ∧
    WellFormedParents G (PathFinder.dijkstraIter G idf e avoid k
        (PathFinder.dijkstraInit G dynIn idf s)).dyn ∧
    WellFormedParents G (PathFinder.astarIter G idf e avoid k
        (PathFinder.astarInit G dynIn idf s e)).dyn := by
  refine ⟨?_, ?_, ?_, ?_⟩
  · exact wellFormedParents_of_parentOk
      (dijkstraLoop_inv G idf s e avoid G.fuelOf _ (dijkstraInit_inv G dynIn idf s e)).2
  · exact wellFormedParents_of_parentOk
      (astarLoop_inv G idf s e avoid G.fuelOf _ (astarInit_inv G dynIn idf s e)).2
  · exact wellFormedParents_of_parentOk
      (dijkstraIter_inv G idf s e avoid k _ (dijkstraInit_inv G dynIn idf s e)).2.2
  · exact wellFormedParents_of_parentOk
      (astarIter_inv G idf s e avoid k _ (astarInit_inv G dynIn idf s e)).2.2

/-- Witness for C8 at the concrete run `bugGrid`, `(1,3)` to `(0,0)`. -/
theorem parent_links_never_cycle_witness :
    WellFormedParents bugGrid (PathFinder.dijkstra bugGrid Dyn.fresh idLin
      (1, 3) (0, 0) true).dyn ∧
    WellFormedParents bugGrid (PathFinder.a_star bugGrid Dyn.fresh idLin
      (1, 3) (0, 0) true).dyn ∧
    WellFormedParents bugGrid (PathFinder.dijkstraIter bugGrid idLin (0, 0) true 5
        (PathFinder.dijkstraInit bugGrid Dyn.fresh idLin (1, 3))).dyn ∧
    WellFormedParents bugGrid (PathFinder.astarIter bugGrid idLin (0, 0) true 5
        (PathFinder.astarInit bugGrid Dyn.fresh idLin (1, 3) (0, 0))).dyn :=
  parent_links_never_cycle bugGrid Dyn.fresh idLin (1, 3) (0, 0) true 5

/-- C3 (amended): there is no lazy re-push.  Under an injective id
assignment, once a cell `n` is registered in `open_set_dict`, iterating
either search loop any number of times never increases the number of
frontier entries for `n` (each cell is pushed at most once per run, on
first improvement) and keeps its dict registration.  With the
counterexample `improved_cell_is_not_repushed` (a later `g_cost`
improvement updates `g_cost` and `parent` but pushes no new entry, the
frontier keeping the stale key), this replaces the claimed
multiple-push lazy-deletion discipline. -/
theorem no_repush_once_registered
    (G : Graph) (idf : Cell → ℕ) (e : Cell) (avoid : Bool) (n : Cell) (k : ℕ)
    (st : SState CostI) (sta : SState FKeyI)
    (hinj : ∀ c1 c2 : Cell, idf c1 = idf c2 → c1 = c2)
    (hd : st.open_set_dict.lookup (idf n) = some n)
    (ha : sta.open_set_dict.lookup (idf n) = some n) :
    ((PathFinder.dijkstraIter G idf e avoid k st).open_set.countP (entIs n) ≤
        st.open_set.countP (entIs n) ∧
      (PathFinder.dijkstraIter G idf e avoid k st).open_set_dict.lookup (idf n) =
        some n) ∧
    ((PathFinder.astarIter G idf e avoid k sta).open_set.countP (entIs n) ≤
        sta.open_set.countP (entIs n) ∧
      (PathFinder.astarIter G idf e avoid k sta).open_set_dict.lookup (idf n) =
        some n) :=
  ⟨dijkstraIter_no_repush G idf e avoid n hinj k st hd,
   astarIter_no_repush G idf e avoid n hinj k sta ha⟩

/-- Witness for C3 at `mtGrid` with the injective id map `idPair`, 3 steps. -/
theorem no_repush_once_registered_witness :
    (∀ c1 c2 : Cell, idPair c1 = idPair c2 → c1 = c2) ∧
    (PathFinder.dijkstraInit mtGrid Dyn.fresh idPair (0, 0)).open_set_dict.lookup
        (idPair (0, 0)) = some (0, 0) ∧
    (PathFinder.astarInit mtGrid Dyn.fresh idPair (0, 0) (1, 1)).open_set_dict.lookup
        (idPair (0, 0)) = some (0, 0) ∧
    (((PathFinder.dijkstraIter mtGrid idPair (1, 1) true 3
          (PathFinder.dijkstraInit mtGrid Dyn.fresh idPair (0, 0))).open_set.countP
            (entIs (0, 0)) ≤
        (PathFinder.dijkstraInit mtGrid Dyn.fresh idPair (0, 0)).open_set.countP
            (entIs (0, 0)) ∧
      (PathFinder.dijkstraIter mtGrid idPair (1, 1) true 3
          (PathFinder.dijkstraInit mtGrid Dyn.fresh idPair (0, 0))).open_set_dict.lookup
            (idPair (0, 0)) = some (0, 0)) ∧
     ((PathFinder.astarIter mtGrid idPair (1, 1) true 3
          (PathFinder.astarInit mtGrid Dyn.fresh idPair (0, 0) (1, 1))).open_set.countP
            (entIs (0, 0)) ≤
        (PathFinder.astarInit mtGrid Dyn.fresh idPair (0, 0) (1, 1)).open_set.countP
            (entIs (0, 0)) ∧
      (PathFinder.astarIter mtGrid idPair (1, 1) true 3
          (PathFinder.astarInit mtGrid Dyn.fresh idPair (0, 0) (1, 1))).open_set_dict.lookup
            (idPair (0, 0)) = some (0, 0))) :=
  ⟨idPair_inj, by with_unfolding_all rfl, by with_unfolding_all rfl,
    no_repush_once_registered mtGrid idPair (1, 1) true (0, 0) 3
      (PathFinder.dijkstraInit mtGrid Dyn.fresh idPair (0, 0))
      (PathFinder.astarInit mtGrid Dyn.fresh idPair (0, 0) (1, 1))
      idPair_inj (by with_unfolding_all rfl) (by with_unfolding_all rfl)⟩
